import Mathlib

/-!
# Verification of `pkg/ws/webcaller.go` and `pkg/fs/fs.go` (matobi/mam-go-lib)

A shallow embedding of the outbound HTTP call builder (`Caller`) and its
executor (`Caller.Call`), and of the path helpers `Suffix`, `WithoutSuffix` and
`GetHouseDir`, followed by theorems about them.

Modelling conventions.

* Go `string` and `*bytes.Buffer` contents are Lean `String`s.
* A Go `error` is a `GoError`; a value of interface or pointer type that may be
  `nil` is an `Option`.
* The builder methods mutate the receiver and return it; here they are pure
  functions `Caller → Caller`.
* Everything `Call` does to the outside world is recorded, in program order, in
  a trace of `Event`s: encoder and decoder runs, the `fmt.Printf` of the header
  loop, the dispatch through `client.Do`, and the reads and the `Close` of the
  response body.
* The libraries `Call` invokes and that are not part of the repository
  (`encoding/json`, `encoding/xml`, `net/url` and the transport behind
  `http.Client`) are the fields of `Env`.  The parts of `net/http` and
  `net/textproto` whose behaviour `Call` relies on directly (`http.NewRequest`,
  `Header.Set`, `Request.SetBasicAuth`) are transcribed.
-/

namespace ws

/-! ## Errors -/

/-- Go `error` values: a leaf error carrying its message, or an error wrapped
with a message by `github.com/pkg/errors`. -/
inductive GoError where
  | msg (text : String)
  | wrapped (cause : GoError) (text : String)
deriving DecidableEq, Repr

/-- The method `Error()` of an `error`: `pkg/errors` renders a wrapped error as
`text: cause`. -/
def GoError.Error : GoError → String
  | .msg t => t
  | .wrapped c t => t ++ ": " ++ c.Error

/-- Go `errors.Errorf(format)` of `github.com/pkg/errors` (no arguments): a new,
non-nil error. -/
def errors.Errorf (format : String) : Option GoError :=
  some (.msg format)

/-- Go `errors.Wrap(err, message)` / `errors.Wrapf(err, format)` of
`github.com/pkg/errors`: `nil` when `err` is `nil`, otherwise `err` annotated
with the message. -/
def errors.Wrap (err : Option GoError) (message : String) : Option GoError :=
  match err with
  | none => none
  | some e => some (.wrapped e message)

/-- Go `http.StatusInternalServerError`. -/
def StatusInternalServerError : Int := 500

/-- Go `http.StatusBadGateway`. -/
def StatusBadGateway : Int := 502

/-- Go `type WebError struct { Cause error; URL string; Status int }`. -/
structure WebError where
  Cause : Option GoError
  URL : String
  Status : Int
deriving DecidableEq, Repr

/-- Go `func (e *WebError) Error() string`. -/
def WebError.Error (e : WebError) : String :=
  let msg := match e.Cause with
    | none => "cause is nil"
    | some c => c.Error
  "error calling url; url=" ++ e.URL ++ "; status=" ++ toString e.Status ++ "; msg=" ++ msg

/-- Go `func NewWebError(cause error, url string, status int) *WebError`. -/
def NewWebError (cause : Option GoError) (url : String) (status : Int) : WebError :=
  { Cause := cause, URL := url, Status := status }

/-! ## The call description -/

def contentJSON : String := "application/json"

def contentXML : String := "application/xml"

/-- Go `type keyValue struct { key, value string }`. -/
structure keyValue where
  key : String
  value : String
deriving DecidableEq, Repr

/-- Go `type Caller struct`. -/
structure Caller where
  Method : String
  URL : String
  contentType : String
  user : String
  pwd : String
  headers : List keyValue
  webErr : Option WebError
deriving DecidableEq, Repr

/-- Go `func NewCaller(method, url string) *Caller`: the fields not named in the
composite literal take their zero values. -/
def NewCaller (method url : String) : Caller :=
  { Method := method
    URL := url
    contentType := ""
    user := ""
    pwd := ""
    headers := []
    webErr := none }

/-- Go `func (c *Caller) Header(name, value string) *Caller`. -/
def Caller.Header (c : Caller) (name value : String) : Caller :=
  { c with headers := c.headers ++ [{ key := name, value := value }] }

/-- Go `func (c *Caller) JSON() *Caller`. -/
def Caller.JSON (c : Caller) : Caller :=
  { c with contentType := contentJSON }

/-- Go `func (c *Caller) XML() *Caller`. -/
def Caller.XML (c : Caller) : Caller :=
  { c with contentType := contentXML }

/-- Go `func (c *Caller) Auth(user, pwd string) *Caller`. -/
def Caller.Auth (c : Caller) (user pwd : String) : Caller :=
  { c with user := user, pwd := pwd }

/-! ## `net/textproto` and `net/http`: headers and requests -/

/-- Go `validHeaderFieldByte` of `net/textproto`, on a character of the name:
the token characters of RFC 7230, which are the ASCII letters and digits and the
fifteen punctuation characters with the codes listed below. A character outside
ASCII is encoded by bytes `≥ 0x80`, none of them valid. -/
def validHeaderFieldByte (c : Char) : Bool :=
  let n := c.toNat
  (48 ≤ n && n ≤ 57) || (65 ≤ n && n ≤ 90) || (97 ≤ n && n ≤ 122) ||
  n == 33 || n == 35 || n == 36 || n == 37 || n == 38 || n == 39 || n == 42 ||
  n == 43 || n == 45 || n == 46 || n == 94 || n == 95 || n == 96 || n == 124 ||
  n == 126

/-- ASCII upper-casing of one character (`c -= toLower` in `net/textproto`). -/
def asciiUpper (c : Char) : Char :=
  if 97 ≤ c.toNat ∧ c.toNat ≤ 122 then Char.ofNat (c.toNat - 32) else c

/-- ASCII lower-casing of one character (`c += toLower` in `net/textproto`). -/
def asciiLower (c : Char) : Char :=
  if 65 ≤ c.toNat ∧ c.toNat ≤ 90 then Char.ofNat (c.toNat + 32) else c

/-- The canonicalising loop of `canonicalMIMEHeaderKey`: upper case for the
first letter and for a letter after a dash, lower case elsewhere. `upper` is the
loop variable of the same name. -/
def canonLoop : Bool → List Char → List Char
  | _, [] => []
  | upper, c :: cs =>
    let c1 := if upper then asciiUpper c else asciiLower c
    c1 :: canonLoop (c1 == '-') cs

/-- Go `textproto.CanonicalMIMEHeaderKey`: "the first letter and any letter
following a hyphen" are made upper case, the rest lower case; "if s contains a
space or invalid header field bytes, it is returned without modifications". -/
def CanonicalMIMEHeaderKey (s : String) : String :=
  if s.data.all validHeaderFieldByte then String.mk (canonLoop true s.data) else s

/-- Go `http.Header`, a `map[string][]string`, as an association list with at most
one entry per key. -/
structure Header where
  entries : List (String × List String)
deriving DecidableEq, Repr

/-- The map index expression `h[key]`: the values stored under exactly `key`,
if there is such an entry. -/
def Header.lookup (h : Header) (key : String) : Option (List String) :=
  h.entries.lookup key

/-- Go `func (h Header) Set(key, value string)`:
`h[CanonicalMIMEHeaderKey(key)] = []string{value}`. -/
def Header.Set (h : Header) (key value : String) : Header :=
  let k := CanonicalMIMEHeaderKey key
  { entries := (k, [value]) :: h.entries.filter (fun p => p.1 != k) }

/-- The part of `http.Request` that `Call` determines. -/
structure Request where
  Method : String
  URL : String
  Header : Header
  Body : String
deriving DecidableEq, Repr

/-- The part of `http.Response` that `Call` uses. `Body` is the content of the
body stream, `none` for a nil `Body`. -/
structure Response where
  StatusCode : Int
  Body : Option String
deriving DecidableEq, Repr

/-- The bytes of a string (its UTF-8 encoding). -/
def utf8Bytes (s : String) : List Nat :=
  s.data.flatMap (fun c => (String.utf8EncodeChar c).map UInt8.toNat)

/-- The alphabet of `base64.StdEncoding`. -/
def base64Char (n : Nat) : Char :=
  if n < 26 then Char.ofNat (65 + n)
  else if n < 52 then Char.ofNat (97 + (n - 26))
  else if n < 62 then Char.ofNat (48 + (n - 52))
  else if n = 62 then '+' else '/'

/-- Go `base64.StdEncoding.EncodeToString` on a list of bytes: three bytes make
four characters, the last group is padded with `=`. -/
def base64Loop : List Nat → List Char
  | a :: b :: c :: rest =>
    base64Char (a / 4) :: base64Char (a % 4 * 16 + b / 16) ::
      base64Char (b % 16 * 4 + c / 64) :: base64Char (c % 64) :: base64Loop rest
  | [a, b] => [base64Char (a / 4), base64Char (a % 4 * 16 + b / 16), base64Char (b % 16 * 4), '=']
  | [a] => [base64Char (a / 4), base64Char (a % 4 * 16), '=', '=']
  | [] => []

/-- Go `basicAuth` of `net/http`: the base64 encoding of `username:password`. -/
def basicAuth (username password : String) : String :=
  String.mk (base64Loop (utf8Bytes (username ++ ":" ++ password)))

/-- Go `validMethod` of `net/http`: a non-empty string of token characters. -/
def validMethod (method : String) : Bool :=
  decide (0 < method.length) && method.data.all validHeaderFieldByte

/-! ## The environment and the trace -/

/-- What `Call` does to the outside world, in program order. -/
inductive Event where
  /-- Go `json.NewEncoder(buf).Encode(in)` ran. -/
  | jsonEncode
  /-- Go `xml.NewEncoder(buf).Encode(in)` ran. -/
  | xmlEncode
  /-- A line of `fmt.Printf`. -/
  | print (line : String)
  /-- The transport was invoked: `client.Do(req)`. -/
  | clientDo (req : Request)
  /-- The response body was read to the end of the stream:
  `io.Copy(ioutil.Discard, resp.Body)`. -/
  | bodyDrain
  /-- Go `json.NewDecoder(resp.Body).Decode(out)` read from the response body. -/
  | jsonDecode
  /-- Go `xml.NewDecoder(resp.Body).Decode(out)` read from the response body. -/
  | xmlDecode
  /-- The call `resp.Body.Close()`. -/
  | bodyClose
deriving DecidableEq, Repr

/-- The libraries behind `Call`, over a type `V` of Go values (inputs and the
contents of output destinations).

* `jsonEncode`, `xmlEncode`: the encoders; the bytes written, or the error.
* `jsonDecode`, `xmlDecode`: the decoders, given the body and the present
  content of the destination; the content of the destination afterwards and the
  error, if any.
* `parseURL`: the error of `url.Parse`, if any.
* `Do`: `client.Do` with its transport: an error and no response, or the status
  code and the body of the response (`net/http` gives every response it returns
  without an error a non-nil `Body`). -/
structure Env (V : Type) where
  jsonEncode : V → Except GoError String
  xmlEncode : V → Except GoError String
  jsonDecode : String → V → V × Option GoError
  xmlDecode : String → V → V × Option GoError
  parseURL : String → Option GoError
  Do : Request → Except GoError (Int × String)

/-- Go `http.NewRequest(method, url, body)`: an empty method means `GET`; the
method must be valid and the URL must parse; the new request has no headers. -/
def NewRequest {V : Type} (env : Env V) (method url : String) (body : String) :
    Except GoError Request :=
  let method := if method = "" then "GET" else method
  if !validMethod method then
    .error (.msg ("net/http: invalid method " ++ method.quote))
  else
    match env.parseURL url with
    | some err => .error err
    | none => .ok { Method := method, URL := url, Header := { entries := [] }, Body := body }

/-- Go `func (r *Request) SetBasicAuth(username, password string)`:
`r.Header.Set("Authorization", "Basic "+basicAuth(username, password))`. -/
def Request.SetBasicAuth (r : Request) (username password : String) : Request :=
  { r with Header := r.Header.Set "Authorization" ("Basic " ++ basicAuth username password) }

/-- The statement `req.Header.Set(key, value)`. -/
def Request.SetHeader (r : Request) (key value : String) : Request :=
  { r with Header := r.Header.Set key value }

/-! ## The executor -/

/-- Go `func (c *Caller) getInBuffer(in interface{}) (*bytes.Buffer, *WebError)`,
with the events of the encoder it runs. -/
def Caller.getInBuffer {V : Type} (env : Env V) (c : Caller) (input : Option V) :
    List Event × Except WebError String :=
  match input with
  | none => ([], .ok "")
  | some v =>
    if c.contentType = contentJSON then
      match env.jsonEncode v with
      | .error err =>
        ([.jsonEncode], .error (NewWebError (errors.Wrap (some err) "failed encode json")
          c.URL StatusInternalServerError))
      | .ok buf => ([.jsonEncode], .ok buf)
    else if c.contentType = contentXML then
      match env.xmlEncode v with
      | .error err =>
        ([.xmlEncode], .error (NewWebError (errors.Wrap (some err) "failed encode xml")
          c.URL StatusInternalServerError))
      | .ok buf => ([.xmlEncode], .ok buf)
    else ([], .ok "")

/-- Go `func DiscardBody(resp *http.Response)`: the events on the response body. -/
def DiscardBody (resp : Option Response) : List Event :=
  match resp with
  | none => []
  | some r =>
    match r.Body with
    | none => []
    | some _ => [.bodyDrain, .bodyClose]

/-- The event of `fmt.Printf("add header: %s=%s\n", kv.key, kv.value)`. -/
def printLine (kv : keyValue) : Event :=
  .print ("add header: " ++ kv.key ++ "=" ++ kv.value ++ "\n")

/-- The loop `for _, kv := range c.headers` of `Call`: each pass prints a line
and sets one header. -/
def addHeaders (headers : List keyValue) (req : Request) : Request × List Event :=
  headers.foldl
    (fun (st : Request × List Event) kv => (st.1.SetHeader kv.key kv.value, st.2 ++ [printLine kv]))
    (req, [])

/-- The statements of `Call` between the construction of the request and the
header loop: `Content-Type` and `Accept` from the content type of the caller,
and basic authentication. -/
def Caller.presetHeaders {V : Type} (c : Caller) (input : Option V) (out : Option V)
    (req0 : Request) : Request :=
  let req1 := if input.isSome ∧ c.contentType ≠ "" then
    req0.SetHeader "Content-Type" c.contentType else req0
  let req2 := if out.isSome ∧ c.contentType ≠ "" then
    req1.SetHeader "Accept" c.contentType else req1
  if c.user ≠ "" ∨ c.pwd ≠ "" then req2.SetBasicAuth c.user c.pwd else req2

/-- What a run of `Call` leaves behind: the returned `*WebError`, the content of
the output destination afterwards (`none` for a nil destination), and the
trace. -/
structure CallResult (V : Type) where
  err : Option WebError
  out : Option V
  trace : List Event

/-- Go `func (c *Caller) Call(client *http.Client, in interface{}, out interface{}) *WebError`.
`out` is the content of the output destination before the call, `none` for a nil
destination. -/
def Caller.Call {V : Type} (env : Env V) (c : Caller) (input : Option V) (out : Option V) :
    CallResult V :=
  match c.webErr with
  | some e => { err := some e, out := out, trace := [] }
  | none =>
    match c.getInBuffer env input with
    | (t1, .error webErr) => { err := some webErr, out := out, trace := t1 }
    | (t1, .ok buf) =>
      match NewRequest env c.Method c.URL buf with
      | .error err =>
        { err := some (NewWebError (errors.Wrap (some err) "failed to create request")
            c.URL StatusInternalServerError)
          out := out, trace := t1 }
      | .ok req0 =>
        let (req, t2) := addHeaders c.headers (c.presetHeaders input out req0)
        match env.Do req with
        | .error err =>
          { err := some (NewWebError (errors.Wrap (some err) "failed to call url")
              c.URL StatusBadGateway)
            out := out, trace := t1 ++ t2 ++ [.clientDo req] }
        | .ok (status, body) =>
          let resp : Response := { StatusCode := status, Body := some body }
          if resp.StatusCode < 200 ∨ resp.StatusCode ≥ 300 then
            { err := some (NewWebError (errors.Errorf "error code response")
                c.URL resp.StatusCode)
              out := out
              trace := t1 ++ t2 ++ [.clientDo req] ++ DiscardBody (some resp) }
          else
            match out with
            | none =>
              { err := none, out := none
                trace := t1 ++ t2 ++ [.clientDo req] ++ DiscardBody (some resp) }
            | some dest =>
              if c.contentType = contentXML then
                match env.xmlDecode body dest with
                | (dest1, some err) =>
                  { err := some (NewWebError (errors.Wrap (some err) "failed decode response")
                      c.URL StatusInternalServerError)
                    out := some dest1
                    trace := t1 ++ t2 ++ [.clientDo req, .xmlDecode, .bodyClose] }
                | (dest1, none) =>
                  { err := none, out := some dest1
                    trace := t1 ++ t2 ++ [.clientDo req, .xmlDecode, .bodyClose] }
              else if c.contentType = contentJSON then
                match env.jsonDecode body dest with
                | (dest1, some err) =>
                  { err := some (NewWebError (errors.Wrap (some err) "failed decode response")
                      c.URL StatusInternalServerError)
                    out := some dest1
                    trace := t1 ++ t2 ++ [.clientDo req, .jsonDecode, .bodyClose] }
                | (dest1, none) =>
                  { err := none, out := some dest1
                    trace := t1 ++ t2 ++ [.clientDo req, .jsonDecode, .bodyClose] }
              else
                { err := none, out := some dest
                  trace := t1 ++ t2 ++ [.clientDo req, .bodyClose] }

/-! ## Observations on a trace -/

/-- The number of times the transport was invoked. -/
def dispatchCount (trace : List Event) : Nat :=
  trace.countP (fun e => match e with
    | .clientDo _ => true
    | _ => false)

/-- An event on the response body: a read or the close. -/
def Event.onBody : Event → Bool
  | .bodyDrain => true
  | .jsonDecode => true
  | .xmlDecode => true
  | .bodyClose => true
  | _ => false

/-- Equality of two names up to ASCII case, the case-insensitive comparison of
header names. -/
def equalFold (a b : String) : Bool :=
  a.data.map asciiLower == b.data.map asciiLower

/-- A name made of valid header field bytes only (an HTTP token, or the empty
name): the names `CanonicalMIMEHeaderKey` canonicalises. -/
def validHeaderName (s : String) : Bool :=
  s.data.all validHeaderFieldByte

/-- The value of the last `Header(name, value)` call whose name satisfies `p`,
if there is one. -/
def lastHeaderValue (p : String → Bool) : List keyValue → Option String
  | [] => none
  | kv :: rest =>
    match lastHeaderValue p rest with
    | some v => some v
    | none => if p kv.key then some kv.value else none

/-! ## Stub environments -/

/-- The decimal digits of a natural number. -/
def digits (n : Nat) : List Char := Nat.toDigits 10 n

/-- The number written by a list of decimal digits. -/
def ofDigits (ds : List Char) : Nat :=
  ds.foldl (fun acc d => 10 * acc + (d.toNat - 48)) 0

/-- A JSON encoder for values of the shape `struct { ID int }` with the field
named `id`, holding a natural number: the object and a newline, as
`json.Encoder` writes it. -/
def stubJSONEncode (n : Nat) : String :=
  String.mk ("\x7b\"id\":".data ++ digits n ++ "\x7d\n".data)

/-- A JSON decoder for the same shape: it accepts exactly the encodings. -/
def stubJSONDecode (body : String) (dest : Nat) : Nat × Option GoError :=
  let n := ofDigits ((body.data.drop 6).takeWhile Char.isDigit)
  if stubJSONEncode n = body then (n, none)
  else (dest, some (.msg "invalid character"))

/-- An XML encoder for the same shape. -/
def stubXMLEncode (n : Nat) : String :=
  String.mk ("<Item><id>".data ++ digits n ++ "</id></Item>".data)

/-- An XML decoder for the same shape: it accepts exactly the encodings. -/
def stubXMLDecode (body : String) (dest : Nat) : Nat × Option GoError :=
  let n := ofDigits ((body.data.drop 10).takeWhile Char.isDigit)
  if stubXMLEncode n = body then (n, none)
  else (dest, some (.msg "XML syntax error"))

/-- An environment over natural numbers with the stub codecs, every URL
accepted, and the given transport. -/
def stubEnv (transport : Request → Except GoError (Int × String)) : Env Nat :=
  { jsonEncode := fun n => .ok (stubJSONEncode n)
    xmlEncode := fun n => .ok (stubXMLEncode n)
    jsonDecode := stubJSONDecode
    xmlDecode := stubXMLDecode
    parseURL := fun _ => none
    Do := transport }

/-- A stub transport that answers every request with the given status and
body. -/
def replyWith (status : Int) (body : String) : Request → Except GoError (Int × String) :=
  fun _ => .ok (status, body)

/-- A stub transport that echoes the body of the request with the given
status. -/
def echoWith (status : Int) : Request → Except GoError (Int × String) :=
  fun req => .ok (status, req.Body)

/-- A caller that posts JSON and attaches a `content-type` header twice, in
different cases. -/
def overrideCaller : Caller :=
  ((NewCaller "POST" "http://h/").JSON.Header "content-type" "text/plain").Header
    "CONTENT-TYPE" "text/csv"

/-- The request `overrideCaller` dispatches for the input `1` and no output
destination. -/
def overrideRequest : Request :=
  { Method := "POST", URL := "http://h/"
    Header := { entries := [("Content-Type", ["text/csv"])] }
    Body := stubJSONEncode 1 }

/-- A Go value of the shape `struct { ID int; Note string }` whose field `ID` is
encoded under the name `id` and whose field `Note` carries the tag `-`, which
makes `encoding/json` and `encoding/xml` leave the field out when encoding and
leave it alone when decoding. -/
structure Tagged where
  id : Nat
  note : String
deriving DecidableEq, Repr

/-- An environment over `Tagged` values: the stub codecs on the field `id`, the
field `note` left out by the encoders and left alone by the decoders, every URL
accepted, and the given transport. -/
def taggedEnv (transport : Request → Except GoError (Int × String)) : Env Tagged :=
  { jsonEncode := fun t => .ok (stubJSONEncode t.id)
    xmlEncode := fun t => .ok (stubXMLEncode t.id)
    jsonDecode := fun body dest =>
      ({ dest with id := (stubJSONDecode body dest.id).1 }, (stubJSONDecode body dest.id).2)
    xmlDecode := fun body dest =>
      ({ dest with id := (stubXMLDecode body dest.id).1 }, (stubXMLDecode body dest.id).2)
    parseURL := fun _ => none
    Do := transport }

/-- A stub transport that fails to dispatch. -/
def failWith (text : String) : Request → Except GoError (Int × String) :=
  fun _ => .error (.msg text)

end ws

namespace fs

/-! ## Go strings, `strings` and `path`

In this part a Go `string` is the list of its bytes, since `len` and the slice
expressions of the source count bytes. -/

/-- The byte `/`. -/
def slash : Nat := 47

/-- The byte `.`. -/
def dot : Nat := 46

/-- The slice expression `s[lo:hi]` of Go on a string: it panics (`none`) unless
`0 ≤ lo ≤ hi ≤ len(s)`. -/
def slice (s : List Nat) (lo hi : Int) : Option (List Nat) :=
  if 0 ≤ lo ∧ lo ≤ hi ∧ hi ≤ s.length then some ((s.take hi.toNat).drop lo.toNat) else none

/-- Go `strings.Index(s, sep)` for a separator of one byte: the index of its
first occurrence, or `-1`. -/
def Index (s : List Nat) (sep : Nat) : Int :=
  if s.indexOf sep < s.length then (s.indexOf sep : Int) else -1

/-- Go `strings.Split(s, sep)` for a separator of one byte: the pieces between
the separators, at least one piece. -/
def splitOn (sep : Nat) : List Nat → List (List Nat)
  | [] => [[]]
  | c :: cs =>
    if c = sep then [] :: splitOn sep cs
    else
      match splitOn sep cs with
      | [] => [[c]]
      | e :: es => (c :: e) :: es

/-- Go `strings.Join(elems, sep)` for a separator of one byte. -/
def joinWith (sep : Nat) : List (List Nat) → List Nat
  | [] => []
  | [e] => e
  | e :: es => e ++ sep :: joinWith sep es

/-- The loop of `path.Base` that strips trailing slashes. -/
def stripTrailingSlashes (p : List Nat) : List Nat :=
  (p.reverse.dropWhile (fun b => b == slash)).reverse

/-- The text after the last slash (`path[lastSlash(path)+1:]`), the whole text
when there is no slash. -/
def afterLastSlash (p : List Nat) : List Nat :=
  (p.reverse.takeWhile (fun b => b != slash)).reverse

/-- Go `path.Base`: the last element of the path, after removing trailing
slashes; `.` for the empty path and `/` for a path of slashes only. -/
def Base (path : List Nat) : List Nat :=
  if path = [] then [dot]
  else
    let p := afterLastSlash (stripTrailingSlashes path)
    if p = [] then [slash] else p

/-- One path element in `path.Clean`, on the stack of the elements kept so far
(the last one first): an empty element and `.` are dropped; `..` removes the
last element kept unless there is none to remove, and is then dropped in a rooted
path and kept in another; any other element is kept. -/
def cleanStep (rooted : Bool) (stack : List (List Nat)) (e : List Nat) : List (List Nat) :=
  if e = [] ∨ e = [dot] then stack
  else if e = [dot, dot] then
    match stack with
    | [] => if rooted then [] else [[dot, dot]]
    | top :: rest =>
      if top = [dot, dot] then (if rooted then stack else [dot, dot] :: stack) else rest
  else e :: stack

/-- Go `path.Clean`, by path elements as its documentation describes it:
multiple slashes count as one, `.` elements are eliminated, an inner `..`
element is eliminated with the element before it, `..` elements that begin a
rooted path are eliminated, and the empty result is `.`. -/
def Clean (path : List Nat) : List Nat :=
  if path = [] then [dot]
  else
    let rooted := path.head? == some slash
    let body := joinWith slash (((splitOn slash path).foldl (cleanStep rooted) []).reverse)
    if rooted then slash :: body
    else if body = [] then [dot] else body

/-- The loop of `path.Join` over the elements: every element from the first
non-empty one on is appended, with a slash between two of them. -/
def joinLoop (buf : List Nat) : List (List Nat) → List Nat
  | [] => buf
  | e :: es =>
    if 0 < buf.length ∨ e ≠ [] then
      joinLoop ((if 0 < buf.length then buf ++ [slash] else buf) ++ e) es
    else joinLoop buf es

/-- Go `path.Join`: the empty string when every element is empty, otherwise the
elements from the first non-empty one on, joined by slashes and cleaned. -/
def Join (elem : List (List Nat)) : List Nat :=
  if (elem.map List.length).sum = 0 then [] else Clean (joinLoop [] elem)

/-! ## `pkg/fs/fs.go` -/

/-- Go `func Suffix(filename string) string`. `toLower` is `strings.ToLower`.
The slice `name[index+1:]` is within bounds, since `0 ≤ index < len(name)`
there. -/
def Suffix (toLower : List Nat → List Nat) (filename : List Nat) : List Nat :=
  let name := Base filename
  let index := Index name dot
  if index < 0 ∨ index = (name.length : Int) - 1 then []
  else toLower (name.drop (index + 1).toNat)

/-- Go `func WithoutSuffix(filename string) string`; `none` is the run-time
panic of a slice expression out of range. -/
def WithoutSuffix (toLower : List Nat → List Nat) (filename : List Nat) : Option (List Nat) :=
  let suffix := Suffix toLower filename
  if suffix = [] then some filename
  else slice filename 0 ((filename.length : Int) - (suffix.length : Int) - 1)

/-- The local `x := "xxxxxxxxxxxxxxxx"` of `GetHouseDir`. -/
def x : List Nat := List.replicate 16 120

/-- The loop `for i := 2; i <= length; i += 2` of `GetHouseDir`, from the
present `i` and `buf`; `none` is a panic of one of the slice expressions (or the
fuel running out). -/
def houseLoop (houseID : List Nat) (length : Nat) : Nat → Nat → List Nat → Option (List Nat)
  | 0, _, _ => none
  | fuel + 1, i, buf =>
    if i ≤ length then
      match slice houseID 0 i, slice x 0 ((length : Int) - (i : Int)) with
      | some a, some b => houseLoop houseID length fuel (i + 2) (buf ++ [slash] ++ a ++ b)
      | _, _ => none
    else some buf

/-- Go `func GetHouseDir(root string, houseID string) (string, error)`: `none`
is a panic, `error` carries the message of the returned error. -/
def GetHouseDir (root houseID : List Nat) : Option (Except (List Nat) (List Nat)) :=
  let length := houseID.length
  if length < 6 ∨ length > 16 ∨ length % 2 ≠ 0 then
    some (.error (ws.utf8Bytes "bad houseID; " ++ houseID))
  else
    match houseLoop houseID length (length + 1) 2 [] with
    | none => none
    | some buf => some (.ok (Clean (Join [root, buf])))

/-- The components of the house directory as the specification words them: the
`k`-th of `len(houseID)/2` components is the first `2k` bytes of `houseID`
followed by `len(houseID)-2k` characters `x`. -/
def houseComponents (houseID : List Nat) : List (List Nat) :=
  (List.range (houseID.length / 2)).map
    (fun k => houseID.take (2 * (k + 1)) ++ List.replicate (houseID.length - 2 * (k + 1)) 120)

/-- The stacks `path.Clean` builds (the last element first): every element is
non-empty, without a slash and not `.`; a `..` element occurs only in a path that
is not rooted, and only `..` elements lie below it. -/
def GoodStack (rooted : Bool) : List (List Nat) → Prop
  | [] => True
  | e :: rest =>
    (e ≠ [] ∧ slash ∉ e ∧ e ≠ [dot]) ∧
    (e = [dot, dot] → rooted = false ∧ ∀ r ∈ rest, r = [dot, dot]) ∧
    GoodStack rooted rest

/-- ASCII lower-casing of a string: `strings.ToLower` on a string of ASCII
bytes. -/
def asciiToLower (s : List Nat) : List Nat :=
  s.map (fun c => if 65 ≤ c ∧ c ≤ 90 then c + 32 else c)

/-- Lower-casing that agrees with `strings.ToLower` on strings made of ASCII
characters and the letter `U+023A` (bytes `C8 BA`), whose lower case is `U+2C65`
(bytes `E2 B1 A5`): the lower-case form is one byte longer. -/
def sampleToLower : List Nat → List Nat
  | 200 :: 186 :: rest => 226 :: 177 :: 165 :: sampleToLower rest
  | c :: rest => (if 65 ≤ c ∧ c ≤ 90 then c + 32 else c) :: sampleToLower rest
  | [] => []

end fs

namespace ws

/-! ## Lemmas on header names -/

set_option maxRecDepth 100000 in
theorem ascii_char_facts : ∀ n, n < 128 →
    asciiLower (asciiUpper (Char.ofNat n)) = asciiLower (Char.ofNat n) ∧
    asciiLower (asciiLower (Char.ofNat n)) = asciiLower (Char.ofNat n) ∧
    asciiUpper (asciiLower (Char.ofNat n)) = asciiUpper (Char.ofNat n) ∧
    validHeaderFieldByte (asciiLower (Char.ofNat n)) = validHeaderFieldByte (Char.ofNat n) := by
  decide

theorem nonascii_char_facts (c : Char) (h : 128 ≤ c.toNat) :
    asciiLower c = c ∧ asciiUpper c = c := by
  constructor
  · unfold asciiLower
    rw [if_neg]
    omega
  · unfold asciiUpper
    rw [if_neg]
    omega

/-- Case conversion on one character: lower-casing absorbs both conversions,
upper-casing absorbs lower-casing, and neither changes validity. -/
theorem char_facts (c : Char) :
    asciiLower (asciiUpper c) = asciiLower c ∧
    asciiLower (asciiLower c) = asciiLower c ∧
    asciiUpper (asciiLower c) = asciiUpper c ∧
    validHeaderFieldByte (asciiLower c) = validHeaderFieldByte c := by
  by_cases h : c.toNat < 128
  · have := ascii_char_facts c.toNat h
    rwa [Char.ofNat_toNat] at this
  · obtain ⟨h1, h2⟩ := nonascii_char_facts c (by omega)
    simp [h1, h2]

theorem asciiUpper_congr {a b : Char} (h : asciiLower a = asciiLower b) :
    asciiUpper a = asciiUpper b := by
  rw [← (char_facts a).2.2.1, ← (char_facts b).2.2.1, h]

theorem valid_congr {a b : Char} (h : asciiLower a = asciiLower b) :
    validHeaderFieldByte a = validHeaderFieldByte b := by
  rw [← (char_facts a).2.2.2, ← (char_facts b).2.2.2, h]

/-- The canonical form depends on the name only up to case. -/
theorem canonLoop_congr (a b : List Char) (upper : Bool)
    (h : a.map asciiLower = b.map asciiLower) : canonLoop upper a = canonLoop upper b := by
  induction a generalizing b upper with
  | nil =>
    cases b with
    | nil => rfl
    | cons y ys => simp at h
  | cons x xs ih =>
    cases b with
    | nil => simp at h
    | cons y ys =>
      simp only [List.map_cons, List.cons.injEq] at h
      have hu := asciiUpper_congr h.1
      simp only [canonLoop, hu, h.1]
      rw [ih ys _ h.2]

/-- The canonical form equals the name up to case. -/
theorem canonLoop_lower (a : List Char) (upper : Bool) :
    (canonLoop upper a).map asciiLower = a.map asciiLower := by
  induction a generalizing upper with
  | nil => rfl
  | cons x xs ih =>
    simp only [canonLoop, List.map_cons, ih]
    cases upper
    · simp [(char_facts x).2.1]
    · simp [(char_facts x).1]

theorem all_valid_congr (a b : List Char) (h : a.map asciiLower = b.map asciiLower) :
    a.all validHeaderFieldByte = b.all validHeaderFieldByte := by
  induction a generalizing b with
  | nil =>
    cases b with
    | nil => rfl
    | cons y ys => simp at h
  | cons x xs ih =>
    cases b with
    | nil => simp at h
    | cons y ys =>
      simp only [List.map_cons, List.cons.injEq] at h
      simp only [List.all_cons, valid_congr h.1, ih ys h.2]

/-- Every name equals its canonical form up to case. -/
theorem equalFold_canonical (m : String) : equalFold (CanonicalMIMEHeaderKey m) m = true := by
  unfold equalFold CanonicalMIMEHeaderKey
  split
  · simp [canonLoop_lower]
  · simp

/-- For a valid name, the names with the same canonical form are the names
equal to it up to case. -/
theorem canonical_eq_iff_equalFold (k n : String) (hn : validHeaderName n = true) :
    CanonicalMIMEHeaderKey k = CanonicalMIMEHeaderKey n ↔ equalFold k n = true := by
  unfold validHeaderName at hn
  constructor
  · intro h
    have h1 := equalFold_canonical k
    have h2 := equalFold_canonical n
    unfold equalFold at h1 h2 ⊢
    simp only [beq_iff_eq] at h1 h2 ⊢
    rw [← h1, h, h2]
  · intro h
    unfold equalFold at h
    simp only [beq_iff_eq] at h
    have hk : k.data.all validHeaderFieldByte = true := by
      rw [all_valid_congr _ _ h]
      exact hn
    unfold CanonicalMIMEHeaderKey
    rw [if_pos hk, if_pos hn, canonLoop_congr _ _ true h]

/-! ## Lemmas on the header map -/

theorem lookup_filter_ne (l : List (String × List String)) (key k : String) (h : key ≠ k) :
    List.lookup key (l.filter (fun p => p.1 != k)) = List.lookup key l := by
  induction l with
  | nil => rfl
  | cons p rest ih =>
    obtain ⟨a, b⟩ := p
    by_cases hak : a = k
    · subst hak
      have hka : (key == a) = false := by simpa using h
      simp [List.filter_cons, List.lookup_cons, hka, ih]
    · have hak2 : (a != k) = true := by simpa using hak
      simp only [List.filter_cons, hak2, if_true, List.lookup_cons, ih]

/-- After `Set(name, value)` the canonical key of `name` holds exactly `value`
and every other key is as before. -/
theorem Header.lookup_Set (h : Header) (name value key : String) :
    (h.Set name value).lookup key
      = if key = CanonicalMIMEHeaderKey name then some [value] else h.lookup key := by
  unfold Header.Set Header.lookup
  by_cases hk : key = CanonicalMIMEHeaderKey name
  · subst hk
    simp [List.lookup_cons]
  · have hk2 : (key == CanonicalMIMEHeaderKey name) = false := by simpa using hk
    simp only [List.lookup_cons, hk2, if_neg hk]
    exact lookup_filter_ne _ _ _ hk

/-- The header loop leaves under each key the value of the last explicit header
with that canonical key, or what was there before the loop. -/
theorem lookup_foldl_SetHeader (hs : List keyValue) (r0 : Request) (key : String) :
    (hs.foldl (fun r kv => r.SetHeader kv.key kv.value) r0).Header.lookup key
      = match lastHeaderValue (fun k => CanonicalMIMEHeaderKey k == key) hs with
        | some v => some [v]
        | none => r0.Header.lookup key := by
  induction hs generalizing r0 with
  | nil => rfl
  | cons kv rest ih =>
    rw [List.foldl_cons, ih]
    simp only [lastHeaderValue]
    cases lastHeaderValue (fun k => CanonicalMIMEHeaderKey k == key) rest with
    | some v => rfl
    | none =>
      simp only [Request.SetHeader, Header.lookup_Set]
      by_cases hk : key = CanonicalMIMEHeaderKey kv.key
      · simp [hk]
      · have : (CanonicalMIMEHeaderKey kv.key == key) = false := by
          simpa using fun h => hk h.symm
        simp [hk, this]

theorem lastHeaderValue_congr (p q : String → Bool) (hs : List keyValue)
    (h : ∀ kv ∈ hs, p kv.key = q kv.key) : lastHeaderValue p hs = lastHeaderValue q hs := by
  induction hs with
  | nil => rfl
  | cons kv rest ih =>
    simp only [lastHeaderValue]
    rw [ih (fun kv hkv => h kv (List.mem_cons_of_mem _ hkv)), h kv (List.mem_cons_self _ _)]

theorem lastHeaderValue_isSome (p : String → Bool) (hs : List keyValue)
    (h : ∃ kv ∈ hs, p kv.key = true) : ∃ v, lastHeaderValue p hs = some v := by
  induction hs with
  | nil => simp at h
  | cons kv rest ih =>
    simp only [lastHeaderValue]
    cases hl : lastHeaderValue p rest with
    | some v => exact ⟨v, rfl⟩
    | none =>
      obtain ⟨kv1, hmem, hp⟩ := h
      rcases List.mem_cons.1 hmem with rfl | hmem
      · exact ⟨kv1.value, by simp [hp]⟩
      · obtain ⟨v, hv⟩ := ih ⟨kv1, hmem, hp⟩
        rw [hl] at hv
        cases hv

/-! ## Lemmas on the executor -/

theorem addHeaders_foldl (hs : List keyValue) (st : Request × List Event) :
    hs.foldl
      (fun (st : Request × List Event) kv =>
        (st.1.SetHeader kv.key kv.value, st.2 ++ [printLine kv])) st
    = (hs.foldl (fun r kv => r.SetHeader kv.key kv.value) st.1, st.2 ++ hs.map printLine) := by
  induction hs generalizing st with
  | nil => simp
  | cons kv rest ih => simp [List.foldl_cons, ih]

/-- The header loop, as a fold over the request and a map for the printed
lines. -/
theorem addHeaders_eq (hs : List keyValue) (req : Request) :
    addHeaders hs req
      = (hs.foldl (fun r kv => r.SetHeader kv.key kv.value) req, hs.map printLine) := by
  unfold addHeaders
  rw [addHeaders_foldl]
  simp

/-- The only events of `getInBuffer` are encoder runs. -/
theorem getInBuffer_trace {V : Type} (env : Env V) (c : Caller) (input : Option V) :
    ∀ e ∈ (c.getInBuffer env input).1, e = .jsonEncode ∨ e = .xmlEncode := by
  unfold Caller.getInBuffer
  intro e he
  split at he
  · simp at he
  · split at he
    · split at he <;> simp at he <;> simp [he]
    · split at he
      · split at he <;> simp at he <;> simp [he]
      · simp at he

/-- If the transport was invoked, then there was no deferred error, encoding
and request construction succeeded, and the request is the one the header
stages built. -/
theorem Call_dispatch_inv {V : Type} (env : Env V) (c : Caller) (input out : Option V)
    (req : Request) (h : Event.clientDo req ∈ (c.Call env input out).trace) :
    c.webErr = none ∧ ∃ t1 buf req0, c.getInBuffer env input = (t1, .ok buf) ∧
      NewRequest env c.Method c.URL buf = .ok req0 ∧
      req = (addHeaders c.headers (c.presetHeaders input out req0)).1 := by
  have hg := getInBuffer_trace env c input
  unfold Caller.Call at h
  split at h
  · simp at h
  · rename_i hw
    refine ⟨hw, ?_⟩
    split at h
    · rename_i t1 webErr hb
      rw [hb] at hg
      have := hg _ h
      simp at this
    · rename_i t1 buf hb
      rw [hb] at hg
      simp only at hg
      split at h
      · have := hg _ h
        simp at this
      · rename_i req0 hr
        refine ⟨t1, buf, req0, hb, hr, ?_⟩
        have hne : Event.clientDo req ∉ t1 := fun hm => by
          have := hg _ hm
          simp at this
        rw [addHeaders_eq] at h ⊢
        simp only at h ⊢
        have hne2 : Event.clientDo req ∉ c.headers.map printLine := by
          simp [printLine]
        repeat' split at h
        all_goals simp [hne, hne2, DiscardBody] at h
        all_goals exact h

theorem dispatchCount_append (a b : List Event) :
    dispatchCount (a ++ b) = dispatchCount a + dispatchCount b := by
  simp [dispatchCount, List.countP_append]

/-- Encoder runs are not dispatches. -/
theorem dispatchCount_getInBuffer {V : Type} (env : Env V) (c : Caller) (input : Option V) :
    dispatchCount (c.getInBuffer env input).1 = 0 := by
  unfold dispatchCount
  rw [List.countP_eq_zero]
  intro e he
  rcases getInBuffer_trace env c input e he with rfl | rfl <;> simp

/-- Printed lines are not dispatches. -/
theorem dispatchCount_printLine (hs : List keyValue) :
    dispatchCount (hs.map printLine) = 0 := by
  unfold dispatchCount
  rw [List.countP_eq_zero]
  intro e he
  obtain ⟨kv, -, rfl⟩ := List.mem_map.1 he
  simp [printLine]

/-- Once encoding and request construction have succeeded, `Call` invokes the
transport exactly once. -/
theorem Call_dispatchCount {V : Type} (env : Env V) (c : Caller) (input out : Option V)
    (t1 : List Event) (buf : String) (req0 : Request) (hw : c.webErr = none)
    (hb : c.getInBuffer env input = (t1, .ok buf))
    (hr : NewRequest env c.Method c.URL buf = .ok req0) :
    dispatchCount (c.Call env input out).trace = 1 := by
  have h1 := dispatchCount_getInBuffer env c input
  have h2 := dispatchCount_printLine c.headers
  rw [hb] at h1
  simp only at h1
  unfold Caller.Call
  simp only [hw, hb, hr, addHeaders_eq]
  repeat' split
  all_goals simp only [dispatchCount_append, h1, h2]
  all_goals simp [dispatchCount, DiscardBody]

/-! ## The request that is dispatched -/

theorem NewRequest_ok {V : Type} (env : Env V) (method url body : String) (req0 : Request)
    (h : NewRequest env method url body = .ok req0) :
    req0.Header = { entries := [] } ∧ req0.Body = body ∧ req0.URL = url := by
  unfold NewRequest at h
  simp only at h
  repeat' split at h
  all_goals first
    | (cases h; done)
    | (cases h; exact ⟨rfl, rfl, rfl⟩)

/-- The headers before the header loop, on a request that had none. -/
theorem presetHeaders_lookup {V : Type} (c : Caller) (input out : Option V) (req0 : Request)
    (h0 : req0.Header = { entries := [] }) (key : String) :
    (c.presetHeaders input out req0).Header.lookup key
      = if key = "Authorization" ∧ (c.user ≠ "" ∨ c.pwd ≠ "") then
          some ["Basic " ++ basicAuth c.user c.pwd]
        else if key = "Accept" ∧ (out.isSome ∧ c.contentType ≠ "") then some [c.contentType]
        else if key = "Content-Type" ∧ (input.isSome ∧ c.contentType ≠ "") then
          some [c.contentType]
        else none := by
  have e1 : CanonicalMIMEHeaderKey "Content-Type" = "Content-Type" := by decide
  have e2 : CanonicalMIMEHeaderKey "Accept" = "Accept" := by decide
  have e3 : CanonicalMIMEHeaderKey "Authorization" = "Authorization" := by decide
  have d1 : ("Accept" : String) ≠ "Authorization" := by decide
  have d2 : ("Content-Type" : String) ≠ "Authorization" := by decide
  have d3 : ("Content-Type" : String) ≠ "Accept" := by decide
  have hnil : ∀ k : String, (Header.mk []).lookup k = none := fun _ => rfl
  unfold Caller.presetHeaders
  simp only [Request.SetBasicAuth, Request.SetHeader]
  by_cases k1 : key = "Authorization"
  · subst k1
    split_ifs <;> simp_all [Header.lookup_Set]
  · by_cases k2 : key = "Accept"
    · subst k2
      split_ifs <;> simp_all [Header.lookup_Set]
    · by_cases k3 : key = "Content-Type"
      · subst k3
        split_ifs <;> simp_all [Header.lookup_Set]
      · split_ifs <;> simp_all [Header.lookup_Set]

theorem presetHeaders_fields {V : Type} (c : Caller) (input out : Option V) (req0 : Request) :
    (c.presetHeaders input out req0).Body = req0.Body ∧
    (c.presetHeaders input out req0).URL = req0.URL := by
  unfold Caller.presetHeaders
  simp only
  repeat' split
  all_goals simp [Request.SetBasicAuth, Request.SetHeader]

theorem foldl_SetHeader_fields (hs : List keyValue) (r0 : Request) :
    (hs.foldl (fun r kv => r.SetHeader kv.key kv.value) r0).Body = r0.Body ∧
    (hs.foldl (fun r kv => r.SetHeader kv.key kv.value) r0).URL = r0.URL := by
  induction hs generalizing r0 with
  | nil => exact ⟨rfl, rfl⟩
  | cons kv rest ih =>
    rw [List.foldl_cons]
    exact ih _

theorem lastHeaderValue_some (p : String → Bool) (hs : List keyValue) (v : String)
    (h : lastHeaderValue p hs = some v) : ∃ kv ∈ hs, p kv.key = true ∧ kv.value = v := by
  induction hs with
  | nil => cases h
  | cons kv rest ih =>
    simp only [lastHeaderValue] at h
    cases hl : lastHeaderValue p rest with
    | some w =>
      rw [hl] at h
      obtain ⟨kv1, hm, hp⟩ := ih (by rw [hl, ← h])
      exact ⟨kv1, List.mem_cons_of_mem _ hm, hp⟩
    | none =>
      rw [hl] at h
      simp only at h
      split at h
      · rename_i hp
        cases h
        exact ⟨kv, List.mem_cons_self _ _, hp, rfl⟩
      · cases h

/-- The headers of the request that `Call` dispatches. -/
theorem Call_request_lookup {V : Type} (env : Env V) (c : Caller) (input out : Option V)
    (req : Request) (h : Event.clientDo req ∈ (c.Call env input out).trace) (key : String) :
    req.Header.lookup key
      = match lastHeaderValue (fun k => CanonicalMIMEHeaderKey k == key) c.headers with
        | some v => some [v]
        | none =>
          if key = "Authorization" ∧ (c.user ≠ "" ∨ c.pwd ≠ "") then
            some ["Basic " ++ basicAuth c.user c.pwd]
          else if key = "Accept" ∧ (out.isSome ∧ c.contentType ≠ "") then some [c.contentType]
          else if key = "Content-Type" ∧ (input.isSome ∧ c.contentType ≠ "") then
            some [c.contentType]
          else none := by
  obtain ⟨-, t1, buf, req0, -, hr, rfl⟩ := Call_dispatch_inv env c input out req h
  rw [addHeaders_eq]
  simp only
  rw [lookup_foldl_SetHeader, presetHeaders_lookup c input out req0 (NewRequest_ok _ _ _ _ _ hr).1]

/-- Every key of the dispatched request is the canonical form of itself. -/
theorem Call_request_key_canonical {V : Type} (env : Env V) (c : Caller) (input out : Option V)
    (req : Request) (h : Event.clientDo req ∈ (c.Call env input out).trace) (key : String)
    (hk : req.Header.lookup key ≠ none) : ∃ m, key = CanonicalMIMEHeaderKey m := by
  rw [Call_request_lookup env c input out req h key] at hk
  cases hl : lastHeaderValue (fun k => CanonicalMIMEHeaderKey k == key) c.headers with
  | some v =>
    obtain ⟨kv, -, hp, -⟩ := lastHeaderValue_some _ _ _ hl
    exact ⟨kv.key, (by simpa using hp : CanonicalMIMEHeaderKey kv.key = key).symm⟩
  | none =>
    rw [hl] at hk
    simp only at hk
    split at hk
    · rename_i h1
      exact ⟨"Authorization", by rw [h1.1]; decide⟩
    · split at hk
      · rename_i h1
        exact ⟨"Accept", by rw [h1.1]; decide⟩
      · split at hk
        · rename_i h1
          exact ⟨"Content-Type", by rw [h1.1]; decide⟩
        · exact absurd rfl hk

/-- The body of the request that `Call` dispatches is the encoded input. -/
theorem Call_request_body {V : Type} (env : Env V) (c : Caller) (input out : Option V)
    (req : Request) (h : Event.clientDo req ∈ (c.Call env input out).trace) :
    ∃ t1, c.getInBuffer env input = (t1, .ok req.Body) := by
  obtain ⟨-, t1, buf, req0, hb, hr, rfl⟩ := Call_dispatch_inv env c input out req h
  refine ⟨t1, ?_⟩
  rw [addHeaders_eq]
  simp only
  rw [(foldl_SetHeader_fields _ _).1, (presetHeaders_fields _ _ _ _).1,
    (NewRequest_ok _ _ _ _ _ hr).2.1]
  exact hb

/-- With the XML content type no JSON encoder or decoder runs. -/
theorem Call_trace_xml {V : Type} (env : Env V) (c : Caller) (input out : Option V)
    (hk : c.contentType = contentXML) :
    Event.jsonEncode ∉ (c.Call env input out).trace ∧
    Event.jsonDecode ∉ (c.Call env input out).trace := by
  have hne : contentXML ≠ contentJSON := by decide
  have hp1 : Event.jsonEncode ∉ c.headers.map printLine := by simp [printLine]
  have hp2 : Event.jsonDecode ∉ c.headers.map printLine := by simp [printLine]
  have hg : (c.getInBuffer env input).1 = [] ∨ (c.getInBuffer env input).1 = [.xmlEncode] := by
    unfold Caller.getInBuffer
    simp only [hk, hne, if_false, if_true]
    repeat' split
    all_goals simp
  unfold Caller.Call
  simp only [addHeaders_eq]
  constructor
  · repeat' split
    all_goals rename_i hb
    all_goals (try rw [hb] at hg)
    all_goals rcases hg with hg | hg
    all_goals simp_all [DiscardBody]
  · repeat' split
    all_goals rename_i hb
    all_goals (try rw [hb] at hg)
    all_goals rcases hg with hg | hg
    all_goals simp_all [DiscardBody]

/-! ## Reported status and cause -/

/-- C1: whenever the transport returns a response with a status outside
200..299, `Call` returns a `WebError` with that status and a non-nil cause,
whatever the output destination; on a status in 200..299 with a nil output
destination `Call` returns nil. -/
theorem C1_status_classification {V : Type} (env : Env V) (c : Caller) (input out : Option V)
    (req : Request) (s : Int) (body : String)
    (hsent : Event.clientDo req ∈ (c.Call env input out).trace)
    (hresp : env.Do req = .ok (s, body)) :
    ((s < 200 ∨ s ≥ 300) →
      ∃ e, (c.Call env input out).err = some e ∧ e.Status = s ∧ e.Cause ≠ none) ∧
    (200 ≤ s ∧ s ≤ 299 → out = none → (c.Call env input out).err = none) := by
  obtain ⟨hw, t1, buf, req0, hb, hr, rfl⟩ := Call_dispatch_inv env c input out req hsent
  constructor
  · intro hs
    simp [Caller.Call, hw, hb, hr, hresp, hs, NewWebError, errors.Errorf]
  · rintro ⟨h1, h2⟩ rfl
    have hs : ¬ (s < 200 ∨ s ≥ 300) := by omega
    simp [Caller.Call, hw, hb, hr, hresp, hs]

/-- Witness for C1: a stub transport answering 404, with an output destination
requested. -/
theorem C1_status_classification_witness :
    ∃ e, ((NewCaller "GET" "http://h/").JSON.Call (stubEnv (replyWith 404 "gone")) none
        (some 7)).err = some e ∧ e.Status = 404 ∧ e.Cause ≠ none :=
  (C1_status_classification (stubEnv (replyWith 404 "gone")) (NewCaller "GET" "http://h/").JSON
    none (some 7)
    { Method := "GET", URL := "http://h/"
      Header := { entries := [("Accept", ["application/json"])] }, Body := "" }
    404 "gone" (by decide) (by rfl)).1 (by decide)

/-- C2: with content type JSON or XML and an output destination, a response
with a status in 200..299 whose body the decoder of that kind rejects makes
`Call` return a `WebError` whose cause is the wrapped decoder error and whose
status is 500, not the status of the response. -/
theorem C2_decode_failure {V : Type} (env : Env V) (c : Caller) (input : Option V) (dest : V)
    (req : Request) (s : Int) (body : String) (derr : GoError)
    (hsent : Event.clientDo req ∈ (c.Call env input (some dest)).trace)
    (hresp : env.Do req = .ok (s, body)) (hs : 200 ≤ s ∧ s ≤ 299)
    (hdec : (c.contentType = contentJSON ∧ (env.jsonDecode body dest).2 = some derr) ∨
      (c.contentType = contentXML ∧ (env.xmlDecode body dest).2 = some derr)) :
    (c.Call env input (some dest)).err
      = some { Cause := some (.wrapped derr "failed decode response"), URL := c.URL,
               Status := 500 } := by
  obtain ⟨hw, t1, buf, req0, hb, hr, rfl⟩ := Call_dispatch_inv env c input _ req hsent
  have hs2 : ¬ (s < 200 ∨ s ≥ 300) := by omega
  have hne : contentJSON ≠ contentXML := by decide
  rcases hdec with ⟨hk, hd⟩ | ⟨hk, hd⟩
  · rcases hx : env.jsonDecode body dest with ⟨d1, e1⟩
    rw [hx] at hd
    simp only at hd
    subst hd
    simp [Caller.Call, hw, hb, hr, hresp, hs2, hk, hne, hx, NewWebError, errors.Wrap,
      StatusInternalServerError]
  · rcases hx : env.xmlDecode body dest with ⟨d1, e1⟩
    rw [hx] at hd
    simp only at hd
    subst hd
    simp [Caller.Call, hw, hb, hr, hresp, hs2, hk, hx, NewWebError, errors.Wrap,
      StatusInternalServerError]

/-- Witness for C2: status 200 with a body that is not JSON. -/
theorem C2_decode_failure_witness :
    ((NewCaller "GET" "http://h/").JSON.Call (stubEnv (replyWith 200 "<html>")) none
        (some 7)).err
      = some { Cause := some (.wrapped (.msg "invalid character") "failed decode response")
               URL := "http://h/", Status := 500 } :=
  C2_decode_failure (stubEnv (replyWith 200 "<html>")) (NewCaller "GET" "http://h/").JSON
    none 7
    { Method := "GET", URL := "http://h/"
      Header := { entries := [("Accept", ["application/json"])] }, Body := "" }
    200 "<html>" (.msg "invalid character") (by decide) (by rfl) (by decide)
    (Or.inl ⟨by rfl, by rfl⟩)

/-- C3: when the transport fails to dispatch, `Call` returns a `WebError` with
status 502, a non-nil cause (the wrapped transport error) and the URL of the
caller. -/
theorem C3_transport_failure {V : Type} (env : Env V) (c : Caller) (input out : Option V)
    (req : Request) (terr : GoError)
    (hsent : Event.clientDo req ∈ (c.Call env input out).trace)
    (hfail : env.Do req = .error terr) :
    ∃ e, (c.Call env input out).err = some e ∧ e.Status = 502 ∧
      e.Cause = some (.wrapped terr "failed to call url") ∧ e.Cause ≠ none ∧ e.URL = c.URL := by
  obtain ⟨hw, t1, buf, req0, hb, hr, rfl⟩ := Call_dispatch_inv env c input out req hsent
  simp [Caller.Call, hw, hb, hr, hfail, NewWebError, errors.Wrap, StatusBadGateway]

/-- Witness for C3: a transport that refuses the connection. -/
theorem C3_transport_failure_witness :
    ∃ e, ((NewCaller "POST" "http://h/").XML.Call (stubEnv (failWith "connection refused"))
        (some 3) none).err = some e ∧ e.Status = 502 ∧
      e.Cause = some (.wrapped (.msg "connection refused") "failed to call url") ∧
      e.Cause ≠ none ∧ e.URL = "http://h/" :=
  C3_transport_failure (stubEnv (failWith "connection refused"))
    (NewCaller "POST" "http://h/").XML (some 3) none
    { Method := "POST", URL := "http://h/"
      Header := { entries := [("Content-Type", ["application/xml"])] }
      Body := "<Item><id>3</id></Item>" }
    (.msg "connection refused") (by decide) (by rfl)

/-! ## The deferred configuration error -/

/-- C4 fails on the code: `NewCaller` performs no validation, so with an empty
method (sent as `GET`), and also with an empty method and an empty URL, `Call`
invokes the transport once and here returns nil. -/
theorem C4_counterexample :
    ((NewCaller "" "http://localhost/").Call (stubEnv (replyWith 200 "")) none none).err = none ∧
    dispatchCount
      ((NewCaller "" "http://localhost/").Call (stubEnv (replyWith 200 "")) none none).trace = 1 ∧
    ((NewCaller "" "").Call (stubEnv (replyWith 200 "")) none none).err = none ∧
    dispatchCount ((NewCaller "" "").Call (stubEnv (replyWith 200 "")) none none).trace = 1 := by
  decide

/-- C4, amended: `Call` short-circuits on the deferred error `webErr` of the
caller: when it is non-nil, `Call` returns it, leaves the output destination
alone and does nothing else (the transport is invoked zero times). `NewCaller`
leaves `webErr` nil for every method and URL, empty or not, and so do the
builder methods; with a nil `webErr`, `Call` invokes the transport exactly once
whenever encoding and request construction succeed. -/
theorem C4_deferred_error_short_circuit {V : Type} (env : Env V) (c : Caller)
    (input out : Option V) :
    (∀ e, c.webErr = some e →
      (c.Call env input out).err = some e ∧ (c.Call env input out).out = out ∧
      (c.Call env input out).trace = [] ∧ dispatchCount (c.Call env input out).trace = 0) ∧
    (∀ method url, (NewCaller method url).webErr = none) ∧
    (∀ name value user pwd, (c.Header name value).webErr = c.webErr ∧ c.JSON.webErr = c.webErr ∧
      c.XML.webErr = c.webErr ∧ (c.Auth user pwd).webErr = c.webErr) ∧
    (c.webErr = none → ∀ t1 buf req0, c.getInBuffer env input = (t1, .ok buf) →
      NewRequest env c.Method c.URL buf = .ok req0 →
      dispatchCount (c.Call env input out).trace = 1) := by
  refine ⟨?_, ?_, ?_, ?_⟩
  · intro e he
    simp [Caller.Call, he, dispatchCount]
  · intro method url
    rfl
  · intro name value user pwd
    exact ⟨rfl, rfl, rfl, rfl⟩
  · intro hw t1 buf req0 hb hr
    exact Call_dispatchCount env c input out t1 buf req0 hw hb hr

/-! ## Explicit headers -/

/-- C5 fails on the code for names that are not HTTP tokens: `Header.Set` stores
a name holding a byte that is not a valid header field byte (here a space)
unchanged, so two such names that differ in case only are two headers. The last
`Header` call matching `x y` up to case has value `2`, and the dispatched
request carries `x y` with value `1` next to `X Y` with value `2`. -/
theorem C5_counterexample :
    equalFold "X Y" "x y" = true ∧
    lastHeaderValue (fun k => equalFold k "x y")
      (((NewCaller "GET" "http://h/").Header "x y" "1").Header "X Y" "2").headers = some "2" ∧
    ∃ req, Event.clientDo req ∈
        ((((NewCaller "GET" "http://h/").Header "x y" "1").Header "X Y" "2").Call
          (stubEnv (replyWith 200 "")) none none).trace ∧
      req.Header.lookup "x y" = some ["1"] ∧ req.Header.lookup "X Y" = some ["2"] :=
  ⟨by decide, by decide,
    { Method := "GET", URL := "http://h/"
      Header := { entries := [("X Y", ["2"]), ("x y", ["1"])] }, Body := "" },
    by decide, by decide, by decide⟩

/-- C5, amended: in the request that `Call` dispatches, for every name `n`
attached via `Header(n, v)`, the header stored under the canonical form of `n`
has exactly one value, that of the last `Header` call whose name has the same
canonical form, whatever was set from the content type or basic auth. When `n`
is made of valid header field bytes, the names with the same canonical form are
the names equal to `n` up to case: the value is that of the last `Header` call
whose name equals `n` case-insensitively, and every header of the request whose
name equals `n` case-insensitively has exactly that value. -/
theorem C5_explicit_headers_override {V : Type} (env : Env V) (c : Caller)
    (input out : Option V) (req : Request) (n : String)
    (hsent : Event.clientDo req ∈ (c.Call env input out).trace)
    (hn : ∃ kv ∈ c.headers, kv.key = n) :
    ∃ v, lastHeaderValue (fun k => CanonicalMIMEHeaderKey k == CanonicalMIMEHeaderKey n)
        c.headers = some v ∧
      req.Header.lookup (CanonicalMIMEHeaderKey n) = some [v] ∧
      (validHeaderName n = true →
        lastHeaderValue (fun k => equalFold k n) c.headers = some v ∧
        equalFold (CanonicalMIMEHeaderKey n) n = true ∧
        ∀ key, equalFold key n = true →
          req.Header.lookup key = some [v] ∨ req.Header.lookup key = none) := by
  obtain ⟨kv, hmem, hkey⟩ := hn
  obtain ⟨v, hv⟩ := lastHeaderValue_isSome
    (fun k => CanonicalMIMEHeaderKey k == CanonicalMIMEHeaderKey n) c.headers
    ⟨kv, hmem, by simp [hkey]⟩
  have hlook : req.Header.lookup (CanonicalMIMEHeaderKey n) = some [v] := by
    rw [Call_request_lookup env c input out req hsent, hv]
  refine ⟨v, hv, hlook, ?_⟩
  intro hvalid
  refine ⟨?_, equalFold_canonical n, ?_⟩
  · rw [← hv]
    apply lastHeaderValue_congr
    intro kv1 _
    have := canonical_eq_iff_equalFold kv1.key n hvalid
    by_cases hf : equalFold kv1.key n = true
    · simp [hf, this.2 hf]
    · have hne : CanonicalMIMEHeaderKey kv1.key ≠ CanonicalMIMEHeaderKey n :=
        fun h => hf (this.1 h)
      simp [hf, hne]
  · intro key hkf
    by_cases hnone : req.Header.lookup key = none
    · exact Or.inr hnone
    · left
      obtain ⟨m, hm⟩ := Call_request_key_canonical env c input out req hsent key hnone
      have h1 : equalFold m n = true := by
        have h2 := equalFold_canonical m
        rw [← hm] at h2
        unfold equalFold at h2 hkf ⊢
        simp only [beq_iff_eq] at h2 hkf ⊢
        rw [← h2, hkf]
      rw [hm, (canonical_eq_iff_equalFold m n hvalid).2 h1]
      exact hlook

/-- Witness for C5: an explicit `content-type` header, attached twice in
different cases, overrides the `Content-Type` set from the content type. -/
theorem C5_explicit_headers_override_witness :
    ∃ v, lastHeaderValue
        (fun k => CanonicalMIMEHeaderKey k == CanonicalMIMEHeaderKey "content-type")
        overrideCaller.headers = some v ∧
      overrideRequest.Header.lookup (CanonicalMIMEHeaderKey "content-type") = some [v] ∧
      (validHeaderName "content-type" = true →
        lastHeaderValue (fun k => equalFold k "content-type") overrideCaller.headers = some v ∧
        equalFold (CanonicalMIMEHeaderKey "content-type") "content-type" = true ∧
        ∀ key, equalFold key "content-type" = true →
          overrideRequest.Header.lookup key = some [v] ∨
          overrideRequest.Header.lookup key = none) :=
  C5_explicit_headers_override (stubEnv (echoWith 200)) overrideCaller (some 1) none
    overrideRequest "content-type" (by decide)
    ⟨{ key := "content-type", value := "text/plain" }, by decide, rfl⟩

/-! ## The response body -/

/-- C6: on every path on which the transport returned a response, the response
body is closed exactly once, as the last thing `Call` does; on every other path
(deferred error, encode failure, request construction failure, transport
failure) the response body is neither read nor closed. -/
theorem C6_body_closed_exactly_once {V : Type} (env : Env V) (c : Caller)
    (input out : Option V) :
    ((∃ req s body, Event.clientDo req ∈ (c.Call env input out).trace ∧
        env.Do req = .ok (s, body)) →
      (c.Call env input out).trace.count Event.bodyClose = 1 ∧
      (c.Call env input out).trace.getLast? = some Event.bodyClose) ∧
    ((¬ ∃ req s body, Event.clientDo req ∈ (c.Call env input out).trace ∧
        env.Do req = .ok (s, body)) →
      ∀ e ∈ (c.Call env input out).trace, e.onBody = false) := by
  have hg := getInBuffer_trace env c input
  have hp : ∀ e ∈ c.headers.map printLine, e.onBody = false := by
    intro e he
    obtain ⟨kv, -, rfl⟩ := List.mem_map.1 he
    rfl
  constructor
  · rintro ⟨req, s, body, hsent, hresp⟩
    obtain ⟨hw, t1, buf, req0, hb, hr, rfl⟩ := Call_dispatch_inv env c input out req hsent
    rw [hb] at hg
    simp only at hg
    have h1 : t1.count Event.bodyClose = 0 := by
      rw [List.count_eq_zero]
      intro hm
      have := hg _ hm
      simp at this
    have h2 : (c.headers.map printLine).count Event.bodyClose = 0 := by
      rw [List.count_eq_zero]
      intro hm
      have := hp _ hm
      simp [Event.onBody] at this
    rw [addHeaders_eq] at hresp
    simp only at hresp
    simp only [Caller.Call, hw, hb, hr, hresp, addHeaders_eq]
    repeat' split
    all_goals simp [List.count_append, h1, h2, DiscardBody, List.getLast?_append]
  · intro hno e he
    unfold Caller.Call at he hno
    split at he
    · simp at he
    · rename_i hw
      simp only [hw] at hno
      split at he
      · rename_i t1 webErr hb
        rw [hb] at hg
        rcases hg e he with rfl | rfl <;> rfl
      · rename_i t1 buf hb
        rw [hb] at hg
        simp only [hb] at hno
        split at he
        · rcases hg e he with rfl | rfl <;> rfl
        · rename_i req0 hr
          simp only [hr, addHeaders_eq] at hno
          rw [addHeaders_eq] at he
          simp only at he
          split at he
          · simp only [List.mem_append, List.mem_singleton] at he
            rcases he with (he | he) | rfl
            · rcases hg e he with rfl | rfl <;> rfl
            · exact hp e he
            · rfl
          · rename_i status body hresp
            exfalso
            apply hno
            refine ⟨_, status, body, ?_, hresp⟩
            rw [hresp]
            simp only
            repeat' split
            all_goals simp [DiscardBody]

/-- Witness for C6: a response with status 200 whose body the JSON decoder
rejects; the body is closed once, last. -/
theorem C6_body_closed_exactly_once_witness :
    ((NewCaller "GET" "http://h/").JSON.Call (stubEnv (replyWith 200 "<html>")) none
        (some 7)).trace.count Event.bodyClose = 1 ∧
    ((NewCaller "GET" "http://h/").JSON.Call (stubEnv (replyWith 200 "<html>")) none
        (some 7)).trace.getLast? = some Event.bodyClose :=
  (C6_body_closed_exactly_once (stubEnv (replyWith 200 "<html>"))
    (NewCaller "GET" "http://h/").JSON none (some 7)).1
    ⟨{ Method := "GET", URL := "http://h/"
       Header := { entries := [("Accept", ["application/json"])] }, Body := "" },
      200, "<html>", by decide, by rfl⟩

/-! ## Round trip through an echoing transport -/

/-- C7 fails on the code for a value the codec does not read back. The input is
a struct with `id` 1 and a note that the codec leaves out (a field tagged `-`);
the encoder accepts it, the transport echoes the body with status 200, and the
output destination has the same shape. `Call` returns nil, and the destination
holds `id` 1 with an empty note, which is not the input. This is so for JSON and
for XML. -/
theorem C7_counterexample :
    (taggedEnv (echoWith 200)).jsonEncode { id := 1, note := "draft" }
      = .ok (stubJSONEncode 1) ∧
    ((NewCaller "POST" "http://h/").JSON.Call (taggedEnv (echoWith 200))
        (some { id := 1, note := "draft" }) (some { id := 0, note := "" })).err = none ∧
    ((NewCaller "POST" "http://h/").JSON.Call (taggedEnv (echoWith 200))
        (some { id := 1, note := "draft" }) (some { id := 0, note := "" })).out
      = some { id := 1, note := "" } ∧
    ((NewCaller "POST" "http://h/").JSON.Call (taggedEnv (echoWith 200))
        (some { id := 1, note := "draft" }) (some { id := 0, note := "" })).out
      ≠ some { id := 1, note := "draft" } ∧
    ((NewCaller "POST" "http://h/").XML.Call (taggedEnv (echoWith 200))
        (some { id := 1, note := "draft" }) (some { id := 0, note := "" })).err = none ∧
    ((NewCaller "POST" "http://h/").XML.Call (taggedEnv (echoWith 200))
        (some { id := 1, note := "draft" }) (some { id := 0, note := "" })).out
      ≠ some { id := 1, note := "draft" } :=
  ⟨rfl, by decide, by decide, by decide, by decide, by decide⟩

/-- C7, amended: with content type JSON or XML, an input that the encoder of
that kind accepts, and a transport that echoes the body of the request with a
status in 200..299, the echoed body is exactly what the encoder wrote, `Call`
decodes it with the decoder of the same kind into the output destination,
returns nil exactly when that decoder accepts it, and leaves in the destination
what the decoder produced. So `Call` returns nil with the output equal to the
input whenever the decoder reads the input back from its encoding; nothing in
`Call` alters the bytes in either direction. -/
theorem C7_echo_decodes_encoded_bytes {V : Type} (env : Env V) (c : Caller) (v dest : V)
    (req : Request) (s : Int) (b : String)
    (hsent : Event.clientDo req ∈ (c.Call env (some v) (some dest)).trace)
    (hecho : env.Do req = .ok (s, req.Body)) (hs : 200 ≤ s ∧ s ≤ 299)
    (henc : (c.contentType = contentJSON ∧ env.jsonEncode v = .ok b) ∨
      (c.contentType = contentXML ∧ env.xmlEncode v = .ok b)) :
    req.Body = b ∧
    (c.contentType = contentJSON →
      (c.Call env (some v) (some dest)).out = some (env.jsonDecode b dest).1 ∧
      ((c.Call env (some v) (some dest)).err = none ↔ (env.jsonDecode b dest).2 = none) ∧
      Event.jsonDecode ∈ (c.Call env (some v) (some dest)).trace ∧
      (env.jsonDecode b dest = (v, none) →
        (c.Call env (some v) (some dest)).err = none ∧
        (c.Call env (some v) (some dest)).out = some v)) ∧
    (c.contentType = contentXML →
      (c.Call env (some v) (some dest)).out = some (env.xmlDecode b dest).1 ∧
      ((c.Call env (some v) (some dest)).err = none ↔ (env.xmlDecode b dest).2 = none) ∧
      Event.xmlDecode ∈ (c.Call env (some v) (some dest)).trace ∧
      (env.xmlDecode b dest = (v, none) →
        (c.Call env (some v) (some dest)).err = none ∧
        (c.Call env (some v) (some dest)).out = some v)) := by
  obtain ⟨t0, hbody⟩ := Call_request_body env c _ _ req hsent
  obtain ⟨hw, t1, buf, req0, hb, hr, hreq⟩ := Call_dispatch_inv env c _ _ req hsent
  have hs2 : ¬ (s < 200 ∨ s ≥ 300) := by omega
  have hne : contentJSON ≠ contentXML := by decide
  have hbuf : req.Body = b := by
    rcases henc with ⟨hk, he⟩ | ⟨hk, he⟩
    · simp [Caller.getInBuffer, hk, he] at hbody
      exact hbody.2.symm
    · simp [Caller.getInBuffer, hk, he, hne.symm] at hbody
      exact hbody.2.symm
  rw [hbuf] at hecho
  rw [hreq] at hecho
  refine ⟨hbuf, ?_, ?_⟩
  · intro hk
    rcases hd : env.jsonDecode b dest with ⟨d1, e1⟩
    cases e1 with
    | none =>
      simp [Caller.Call, hw, hb, hr, hecho, hs2, hk, hne, hd]
    | some e =>
      simp [Caller.Call, hw, hb, hr, hecho, hs2, hk, hne, hd]
  · intro hk
    rcases hd : env.xmlDecode b dest with ⟨d1, e1⟩
    cases e1 with
    | none =>
      simp [Caller.Call, hw, hb, hr, hecho, hs2, hk, hd]
    | some e =>
      simp [Caller.Call, hw, hb, hr, hecho, hs2, hk, hd]

/-- Witness for C7: `POST`, JSON, input with `id` 1, a transport echoing the
body with status 201; the stub decoder reads the input back, `Call` returns nil
and the output is the input. -/
theorem C7_echo_decodes_encoded_bytes_witness :
    ((NewCaller "POST" "http://h/").JSON.Call (stubEnv (echoWith 201)) (some 1) (some 0)).err
      = none ∧
    ((NewCaller "POST" "http://h/").JSON.Call (stubEnv (echoWith 201)) (some 1) (some 0)).out
      = some 1 :=
  ((C7_echo_decodes_encoded_bytes (stubEnv (echoWith 201)) (NewCaller "POST" "http://h/").JSON
    1 0
    { Method := "POST", URL := "http://h/"
      Header := { entries := [("Accept", ["application/json"]),
                              ("Content-Type", ["application/json"])] }
      Body := stubJSONEncode 1 }
    201 (stubJSONEncode 1) (by decide) (by rfl) (by decide)
    (Or.inl ⟨by rfl, by rfl⟩)).2.1 (by rfl)).2.2.2 (by decide)

/-! ## The content type -/

/-- C8 fails on the code for a caller with a colliding explicit header: after
`JSON()` and then `XML()`, an explicit `Content-Type` header overrides the value
set from the content type, and the request is sent with the JSON media type. -/
theorem C8_counterexample :
    ∃ req, Event.clientDo req ∈
        (((NewCaller "POST" "http://h/").JSON.XML.Header "Content-Type" "application/json").Call
          (stubEnv (echoWith 200)) (some 1) none).trace ∧
      req.Body = stubXMLEncode 1 ∧
      req.Header.lookup "Content-Type" = some [contentJSON] ∧
      req.Header.lookup "Content-Type" ≠ some [contentXML] :=
  ⟨{ Method := "POST", URL := "http://h/"
     Header := { entries := [("Content-Type", ["application/json"])] }
     Body := stubXMLEncode 1 },
    by decide, by decide, by decide, by decide⟩

/-- C8, amended: the last of `JSON()` and `XML()` wins. After `JSON()` and then
`XML()`, `Call` behaves exactly as after `XML()` alone, and after `XML()` and
then `JSON()` exactly as after `JSON()` alone. After `JSON()` and then `XML()`:
a non-nil input is encoded with the XML encoder; no JSON encoder or decoder
runs; the dispatched request carries `Content-Type` (for a non-nil input) and
`Accept` (for a requested output) with the value `application/xml`, unless an
explicitly attached header of that canonical name overrides it, in which case
the value of the last such header is sent; and a response with a status in
200..299 is decoded into the output destination with the XML decoder. Attaching
a header or credentials after `XML()` is the same as attaching them before
`JSON()`. -/
theorem C8_last_content_type_wins {V : Type} (env : Env V) (c : Caller)
    (input out : Option V) :
    (c.JSON.XML.Call env input out = c.XML.Call env input out ∧
      c.XML.JSON.Call env input out = c.JSON.Call env input out) ∧
    (∀ v, c.JSON.XML.getInBuffer env (some v)
      = ([Event.xmlEncode],
          match env.xmlEncode v with
          | .ok buf => .ok buf
          | .error err => .error { Cause := some (.wrapped err "failed encode xml")
                                   URL := c.URL, Status := 500 })) ∧
    (Event.jsonEncode ∉ (c.JSON.XML.Call env input out).trace ∧
      Event.jsonDecode ∉ (c.JSON.XML.Call env input out).trace) ∧
    (∀ req, Event.clientDo req ∈ (c.JSON.XML.Call env input out).trace →
      req.Header.lookup "Content-Type"
        = (match lastHeaderValue (fun k => CanonicalMIMEHeaderKey k == "Content-Type")
            c.headers with
          | some v => some [v]
          | none => if input.isSome then some [contentXML] else none) ∧
      req.Header.lookup "Accept"
        = (match lastHeaderValue (fun k => CanonicalMIMEHeaderKey k == "Accept")
            c.headers with
          | some v => some [v]
          | none => if out.isSome then some [contentXML] else none)) ∧
    (∀ req s body dest, Event.clientDo req ∈ (c.JSON.XML.Call env input out).trace →
      env.Do req = .ok (s, body) → 200 ≤ s ∧ s ≤ 299 → out = some dest →
      (c.JSON.XML.Call env input out).out = some (env.xmlDecode body dest).1 ∧
      Event.xmlDecode ∈ (c.JSON.XML.Call env input out).trace) ∧
    (∀ name value user pwd, c.JSON.XML.Header name value = (c.Header name value).JSON.XML ∧
      c.JSON.XML.Auth user pwd = (c.Auth user pwd).JSON.XML) := by
  have hne : contentXML ≠ contentJSON := by decide
  have hx : contentXML ≠ "" := by decide
  have hk : c.JSON.XML.contentType = contentXML := rfl
  refine ⟨⟨rfl, rfl⟩, ?_, Call_trace_xml env _ input out hk, ?_, ?_, fun _ _ _ _ => ⟨rfl, rfl⟩⟩
  · intro v
    simp only [Caller.getInBuffer, hk, hne, if_false, if_true]
    split <;> simp_all [NewWebError, errors.Wrap, StatusInternalServerError, Caller.XML,
      Caller.JSON]
  · intro req hsent
    have h1 := Call_request_lookup env _ input out req hsent "Content-Type"
    have h2 := Call_request_lookup env _ input out req hsent "Accept"
    have d1 : ("Content-Type" : String) ≠ "Authorization" := by decide
    have d2 : ("Accept" : String) ≠ "Authorization" := by decide
    have d3 : ("Content-Type" : String) ≠ "Accept" := by decide
    have hh : c.JSON.XML.headers = c.headers := rfl
    simp only [hk, hh, d1, d2, d3, hx, false_and, true_and, if_false, ne_eq, not_false_eq_true,
      and_true] at h1 h2
    exact ⟨h1, h2⟩
  · rintro req s body dest hsent hresp hs rfl
    obtain ⟨hw, t1, buf, req0, hb, hr, rfl⟩ := Call_dispatch_inv env _ input _ req hsent
    have hs2 : ¬ (s < 200 ∨ s ≥ 300) := by omega
    rcases hd : env.xmlDecode body dest with ⟨d1, e1⟩
    cases e1 <;> simp [Caller.Call, hw, hb, hr, hresp, hs2, hk, hd]

/-- C9: for a caller with no explicitly attached headers, the dispatched
request carries `Content-Type` exactly when the input is non-nil and the content
type is set, `Accept` exactly when an output destination is requested and the
content type is set, both with the content type as value, and `Authorization`
(basic auth) exactly when the user or the password is non-empty; it carries no
other header. -/
theorem C9_default_headers {V : Type} (env : Env V) (c : Caller) (input out : Option V)
    (req : Request) (hnone : c.headers = [])
    (hsent : Event.clientDo req ∈ (c.Call env input out).trace) :
    req.Header.lookup "Content-Type"
      = (if input.isSome ∧ c.contentType ≠ "" then some [c.contentType] else none) ∧
    req.Header.lookup "Accept"
      = (if out.isSome ∧ c.contentType ≠ "" then some [c.contentType] else none) ∧
    req.Header.lookup "Authorization"
      = (if c.user ≠ "" ∨ c.pwd ≠ "" then some ["Basic " ++ basicAuth c.user c.pwd]
         else none) ∧
    (∀ key, key ≠ "Content-Type" → key ≠ "Accept" → key ≠ "Authorization" →
      req.Header.lookup key = none) := by
  have d1 : ("Content-Type" : String) ≠ "Authorization" := by decide
  have d2 : ("Accept" : String) ≠ "Authorization" := by decide
  have d3 : ("Content-Type" : String) ≠ "Accept" := by decide
  refine ⟨?_, ?_, ?_, ?_⟩
  · rw [Call_request_lookup env c input out req hsent, hnone]
    simp [lastHeaderValue, d1, d3]
  · rw [Call_request_lookup env c input out req hsent, hnone]
    simp [lastHeaderValue, d2]
  · rw [Call_request_lookup env c input out req hsent, hnone]
    simp [lastHeaderValue]
  · intro key k1 k2 k3
    rw [Call_request_lookup env c input out req hsent, hnone]
    simp [lastHeaderValue, k1, k2, k3]

/-- Witness for C9: XML, an input, no output destination, a user and no
password. -/
theorem C9_default_headers_witness :
    (Request.mk "PUT" "http://h/"
        { entries := [("Authorization", ["Basic dTo="]), ("Content-Type", ["application/xml"])] }
        (stubXMLEncode 2)).Header.lookup "Authorization" = some ["Basic dTo="] :=
  (C9_default_headers (stubEnv (replyWith 204 ""))
    ((NewCaller "PUT" "http://h/").XML.Auth "u" "") (some 2) none
    (Request.mk "PUT" "http://h/"
      { entries := [("Authorization", ["Basic dTo="]), ("Content-Type", ["application/xml"])] }
      (stubXMLEncode 2))
    (by rfl) (by decide)).2.2.1

/-- C10: with no content type set, no encoder runs, so no encode error can
occur and the body of the dispatched request is empty, for a nil and for a
non-nil input; no decoder runs; and on a response with a status in 200..299
`Call` returns nil and leaves the output destination as it was. -/
theorem C10_no_content_type {V : Type} (env : Env V) (c : Caller) (input out : Option V)
    (hkind : c.contentType = "") :
    c.getInBuffer env input = ([], .ok "") ∧
    (∀ e ∈ (c.Call env input out).trace,
      e ≠ Event.jsonEncode ∧ e ≠ Event.xmlEncode ∧ e ≠ Event.jsonDecode ∧ e ≠ Event.xmlDecode) ∧
    (∀ req, Event.clientDo req ∈ (c.Call env input out).trace → req.Body = "") ∧
    (∀ req s body, Event.clientDo req ∈ (c.Call env input out).trace →
      env.Do req = .ok (s, body) → 200 ≤ s ∧ s ≤ 299 →
      (c.Call env input out).err = none ∧ (c.Call env input out).out = out) := by
  have h1 : ("" : String) ≠ contentJSON := by decide
  have h2 : ("" : String) ≠ contentXML := by decide
  have hb : c.getInBuffer env input = ([], .ok "") := by
    unfold Caller.getInBuffer
    cases input <;> simp [hkind, h1, h2]
  refine ⟨hb, ?_, ?_, ?_⟩
  · intro e he
    unfold Caller.Call at he
    simp only [hb, addHeaders_eq, hkind, h1, h2, if_false] at he
    repeat' split at he
    all_goals simp [DiscardBody, printLine] at he
    all_goals aesop
  · intro req hsent
    obtain ⟨t1, hbody⟩ := Call_request_body env c input out req hsent
    rw [hb] at hbody
    simp only [Prod.mk.injEq, Except.ok.injEq] at hbody
    exact hbody.2.symm
  · intro req s body hsent hresp hs
    obtain ⟨hw, t1, buf, req0, hb2, hr, rfl⟩ := Call_dispatch_inv env c input out req hsent
    have hs2 : ¬ (s < 200 ∨ s ≥ 300) := by omega
    cases out <;> simp [Caller.Call, hw, hb2, hr, hresp, hs2, hkind, h1, h2]

/-- Witness for C10: no content type, an input and an output destination, and a
transport answering 200 with a body. -/
theorem C10_no_content_type_witness :
    ((NewCaller "GET" "http://h/").Call (stubEnv (replyWith 200 "ignored")) (some 5)
        (some 9)).err = none ∧
    ((NewCaller "GET" "http://h/").Call (stubEnv (replyWith 200 "ignored")) (some 5)
        (some 9)).out = some 9 :=
  (C10_no_content_type (stubEnv (replyWith 200 "ignored")) (NewCaller "GET" "http://h/")
    (some 5) (some 9) (by rfl)).2.2.2
    { Method := "GET", URL := "http://h/", Header := { entries := [] }, Body := "" }
    200 "ignored" (by decide) (by rfl) (by decide)

/-! ## Draining the response body -/

/-- C12: when the transport returns a response whose status is outside 200..299,
or is inside with a nil output destination, `Call` reads the response body to
the end of the stream and then closes it, as its last two actions; the output
destination is left alone, and the returned value is fixed by the status and the
URL alone (a `WebError` with the cause `error code response` outside 200..299,
nil inside), the same whatever body the transport returns. -/
theorem C12_body_drained_and_discarded {V : Type} (env : Env V) (c : Caller)
    (input out : Option V) (req : Request) (s : Int) (body : String)
    (hsent : Event.clientDo req ∈ (c.Call env input out).trace)
    (hresp : env.Do req = .ok (s, body))
    (hpath : (s < 200 ∨ s ≥ 300) ∨ out = none) :
    (∃ pre, (c.Call env input out).trace
        = pre ++ [Event.clientDo req, Event.bodyDrain, Event.bodyClose] ∧
      ∀ e ∈ pre, e.onBody = false) ∧
    (c.Call env input out).err
      = (if s < 200 ∨ s ≥ 300 then
          some { Cause := some (.msg "error code response"), URL := c.URL, Status := s }
         else none) ∧
    (c.Call env input out).out = out ∧
    (∀ (transport : Request → Except GoError (Int × String)) (body2 : String),
      transport req = .ok (s, body2) →
      (c.Call { env with Do := transport } input out).err = (c.Call env input out).err ∧
      (c.Call { env with Do := transport } input out).out = (c.Call env input out).out) := by
  have hg := getInBuffer_trace env c input
  obtain ⟨hw, t1, buf, req0, hb, hr, rfl⟩ := Call_dispatch_inv env c input out req hsent
  rw [hb] at hg
  simp only at hg
  have hb2 : ∀ transport : Request → Except GoError (Int × String),
      c.getInBuffer { env with Do := transport } input = (t1, .ok buf) := fun _ => hb
  have hr2 : ∀ transport : Request → Except GoError (Int × String),
      NewRequest { env with Do := transport } c.Method c.URL buf = .ok req0 := fun _ => hr
  have hpre : ∀ e ∈ t1 ++ c.headers.map printLine, e.onBody = false := by
    intro e he
    rcases List.mem_append.1 he with h | h
    · rcases hg e h with rfl | rfl <;> rfl
    · obtain ⟨kv, -, rfl⟩ := List.mem_map.1 h
      rfl
  rw [addHeaders_eq] at hresp
  simp only at hresp
  rcases hpath with hs | rfl
  · refine ⟨⟨t1 ++ c.headers.map printLine, ?_, hpre⟩, ?_, ?_, ?_⟩
    · simp [Caller.Call, hw, hb, hr, hresp, hs, addHeaders_eq, DiscardBody]
    · simp [Caller.Call, hw, hb, hr, hresp, hs, addHeaders_eq, NewWebError, errors.Errorf]
    · simp [Caller.Call, hw, hb, hr, hresp, hs, addHeaders_eq]
    · intro transport body2 ht
      rw [addHeaders_eq] at ht
      simp only at ht
      simp [Caller.Call, hw, hb, hr, hb2 transport, hr2 transport, hresp, ht, hs, addHeaders_eq]
  · by_cases hs : s < 200 ∨ s ≥ 300
    · refine ⟨⟨t1 ++ c.headers.map printLine, ?_, hpre⟩, ?_, ?_, ?_⟩
      · simp [Caller.Call, hw, hb, hr, hresp, hs, addHeaders_eq, DiscardBody]
      · simp [Caller.Call, hw, hb, hr, hresp, hs, addHeaders_eq, NewWebError, errors.Errorf]
      · simp [Caller.Call, hw, hb, hr, hresp, hs, addHeaders_eq]
      · intro transport body2 ht
        rw [addHeaders_eq] at ht
        simp only at ht
        simp [Caller.Call, hw, hb, hr, hb2 transport, hr2 transport, hresp, ht, hs,
          addHeaders_eq]
    · refine ⟨⟨t1 ++ c.headers.map printLine, ?_, hpre⟩, ?_, ?_, ?_⟩
      · simp [Caller.Call, hw, hb, hr, hresp, hs, addHeaders_eq, DiscardBody]
      · simp [Caller.Call, hw, hb, hr, hresp, hs, addHeaders_eq]
      · simp [Caller.Call, hw, hb, hr, hresp, hs, addHeaders_eq]
      · intro transport body2 ht
        rw [addHeaders_eq] at ht
        simp only at ht
        simp [Caller.Call, hw, hb, hr, hb2 transport, hr2 transport, hresp, ht, hs,
          addHeaders_eq]

/-- Witness for C12: `GET`, no content type, no input, and a transport answering
500 with a body. -/
theorem C12_body_drained_and_discarded_witness :
    (∃ pre, ((NewCaller "GET" "http://h/").Call (stubEnv (replyWith 500 "stack trace")) none
        none).trace
        = pre ++ [Event.clientDo
            { Method := "GET", URL := "http://h/", Header := { entries := [] }, Body := "" },
          Event.bodyDrain, Event.bodyClose] ∧
      ∀ e ∈ pre, e.onBody = false) ∧
    ((NewCaller "GET" "http://h/").Call (stubEnv (replyWith 500 "stack trace")) none none).err
      = some { Cause := some (.msg "error code response"), URL := "http://h/", Status := 500 } :=
  have h := C12_body_drained_and_discarded (stubEnv (replyWith 500 "stack trace"))
    (NewCaller "GET" "http://h/") none none
    { Method := "GET", URL := "http://h/", Header := { entries := [] }, Body := "" }
    500 "stack trace" (by decide) (by rfl) (Or.inl (Or.inr (by decide)))
  ⟨h.1, h.2.1⟩

end ws

namespace fs

/-! ## Lemmas on `strings.Split` and `strings.Join` -/

theorem splitOn_ne_nil (sep : Nat) (p : List Nat) : splitOn sep p ≠ [] := by
  induction p with
  | nil => simp [splitOn]
  | cons c cs ih =>
    unfold splitOn
    split
    · simp
    · split <;> simp

/-- Splitting distributes over a separator between two texts. -/
theorem splitOn_append (sep : Nat) (a b : List Nat) :
    splitOn sep (a ++ sep :: b) = splitOn sep a ++ splitOn sep b := by
  induction a with
  | nil => simp [splitOn]
  | cons c cs ih =>
    by_cases hc : c = sep
    · simp [splitOn, hc]
      simpa [hc] using ih
    · simp only [List.cons_append, splitOn, hc, if_false]
      change (match splitOn sep (cs ++ sep :: b) with
        | [] => [[c]]
        | e :: es => (c :: e) :: es) = _
      rw [ih]
      cases h : splitOn sep cs with
      | nil => exact absurd h (splitOn_ne_nil sep cs)
      | cons e es => simp

/-- A text without the separator is one piece. -/
theorem splitOn_of_not_mem (sep : Nat) (e : List Nat) (h : sep ∉ e) : splitOn sep e = [e] := by
  induction e with
  | nil => rfl
  | cons c cs ih =>
    have hc : c ≠ sep := fun hh => h (by simp [hh])
    have hcs : sep ∉ cs := fun hh => h (List.mem_cons_of_mem _ hh)
    simp [splitOn, hc, ih hcs]

/-- No piece holds the separator. -/
theorem not_mem_of_mem_splitOn (sep : Nat) (p : List Nat) :
    ∀ e ∈ splitOn sep p, sep ∉ e := by
  induction p with
  | nil => simp [splitOn]
  | cons c cs ih =>
    intro e he
    unfold splitOn at he
    split at he
    · rcases List.mem_cons.1 he with rfl | he
      · simp
      · exact ih e he
    · rename_i hc
      split at he
      · simp only [List.mem_singleton] at he
        subst he
        rename_i hnil
        exact absurd hnil (splitOn_ne_nil sep cs)
      · rename_i e0 es heq
        rw [heq] at ih
        rcases List.mem_cons.1 he with rfl | he
        · intro hm
          rcases List.mem_cons.1 hm with hh | hh
          · exact hc hh.symm
          · exact ih e0 (List.mem_cons_self _ _) hh
        · exact ih e (List.mem_cons_of_mem _ he)

/-- Splitting a joined list of pieces without the separator gives the pieces
back. -/
theorem splitOn_joinWith (sep : Nat) (l : List (List Nat)) (hl : l ≠ [])
    (h : ∀ e ∈ l, sep ∉ e) : splitOn sep (joinWith sep l) = l := by
  induction l with
  | nil => exact absurd rfl hl
  | cons e es ih =>
    cases es with
    | nil => simpa [joinWith] using splitOn_of_not_mem sep e (h e (List.mem_cons_self _ _))
    | cons e1 es1 =>
      simp only [joinWith]
      rw [splitOn_append, splitOn_of_not_mem sep e (h e (List.mem_cons_self _ _)),
        ih (by simp) (fun a ha => h a (List.mem_cons_of_mem _ ha))]
      rfl


/-! ## Lemmas on `path.Clean` -/

theorem cleanStep_good (rooted : Bool) (st : List (List Nat)) (e : List Nat)
    (hst : GoodStack rooted st) (he : slash ∉ e) : GoodStack rooted (cleanStep rooted st e) := by
  unfold cleanStep
  split
  · exact hst
  · rename_i h1
    have hne : e ≠ [] := fun h => h1 (Or.inl h)
    have hnd : e ≠ [dot] := fun h => h1 (Or.inr h)
    split
    · rename_i hdd
      cases st with
      | nil =>
        cases rooted
        · simp [GoodStack, dot, slash]
        · simp [GoodStack]
      | cons top rest =>
        simp only
        split
        · rename_i htop
          cases rooted
          · simp only [Bool.false_eq_true, if_false]
            refine ⟨⟨by simp, by simp [dot, slash], by simp⟩, ?_, hst⟩
            intro _
            refine ⟨rfl, ?_⟩
            intro r hr
            rcases List.mem_cons.1 hr with rfl | hr
            · exact htop
            · exact (hst.2.1 htop).2 r hr
          · exact hst
        · exact hst.2.2
    · rename_i hdd
      exact ⟨⟨hne, he, hnd⟩, fun h => absurd h hdd, hst⟩

theorem foldl_cleanStep_good (rooted : Bool) (l : List (List Nat)) (st : List (List Nat))
    (hst : GoodStack rooted st) (hl : ∀ e ∈ l, slash ∉ e) :
    GoodStack rooted (l.foldl (cleanStep rooted) st) := by
  induction l generalizing st with
  | nil => exact hst
  | cons e es ih =>
    rw [List.foldl_cons]
    exact ih _ (cleanStep_good rooted st e hst (hl e (List.mem_cons_self _ _)))
      (fun a ha => hl a (List.mem_cons_of_mem _ ha))

/-- Cleaning the elements of a stack that `path.Clean` built builds the same
stack. -/
theorem foldl_cleanStep_replay (rooted : Bool) (st : List (List Nat))
    (hst : GoodStack rooted st) : st.reverse.foldl (cleanStep rooted) [] = st := by
  induction st with
  | nil => rfl
  | cons e rest ih =>
    rw [List.reverse_cons, List.foldl_append, ih hst.2.2]
    simp only [List.foldl_cons, List.foldl_nil]
    obtain ⟨⟨hne, -, hnd⟩, hdd, -⟩ := hst
    unfold cleanStep
    rw [if_neg (by simp [hne, hnd])]
    split
    · rename_i h
      obtain ⟨hr, hall⟩ := hdd h
      subst hr
      cases rest with
      | nil => simp [h]
      | cons top rest1 =>
        simp [hall top (List.mem_cons_self _ _), h]
    · rfl

theorem GoodStack_mem (rooted : Bool) (st : List (List Nat)) (hst : GoodStack rooted st) :
    ∀ e ∈ st, e ≠ [] ∧ slash ∉ e := by
  induction st with
  | nil => simp
  | cons e rest ih =>
    intro a ha
    rcases List.mem_cons.1 ha with rfl | ha
    · exact ⟨hst.1.1, hst.1.2.1⟩
    · exact ih hst.2.2 a ha

theorem joinWith_head (sep : Nat) (e : List Nat) (es : List (List Nat)) (he : e ≠ []) :
    (joinWith sep (e :: es)).head? = e.head? := by
  cases e with
  | nil => exact absurd rfl he
  | cons c cs => cases es <;> simp [joinWith]

theorem joinWith_eq_nil (sep : Nat) (l : List (List Nat)) (h : ∀ e ∈ l, e ≠ [])
    (hj : joinWith sep l = []) : l = [] := by
  cases l with
  | nil => rfl
  | cons e es =>
    exfalso
    have he := h e (List.mem_cons_self _ _)
    cases es with
    | nil => exact he (by simpa [joinWith] using hj)
    | cons e1 es1 => simp [joinWith] at hj

/-- Go `path.Clean` returns a clean path: cleaning it again changes nothing. -/
theorem Clean_idempotent (p : List Nat) : Clean (Clean p) = Clean p := by
  by_cases hp : p = []
  · subst hp
    decide
  · have hgood : GoodStack (p.head? == some slash)
        ((splitOn slash p).foldl (cleanStep (p.head? == some slash)) []) :=
      foldl_cleanStep_good _ _ [] trivial (not_mem_of_mem_splitOn slash p)
    generalize hst : (splitOn slash p).foldl (cleanStep (p.head? == some slash)) [] = st
      at hgood
    have hmem := GoodStack_mem _ st hgood
    have hmem2 : ∀ e ∈ st.reverse, e ≠ [] ∧ slash ∉ e := fun e he =>
      hmem e (List.mem_reverse.1 he)
    have hclean : Clean p = if (p.head? == some slash) = true then
        slash :: joinWith slash st.reverse
        else if joinWith slash st.reverse = [] then [dot] else joinWith slash st.reverse := by
      unfold Clean
      rw [if_neg hp]
      simp only [hst]
    rw [hclean]
    cases hr : (p.head? == some slash)
    · -- not rooted
      rw [hr] at hgood
      simp only [Bool.false_eq_true, if_false]
      by_cases hb : joinWith slash st.reverse = []
      · rw [if_pos hb]
        decide
      · rw [if_neg hb]
        have hne : st.reverse ≠ [] := fun h => hb (by rw [h]; rfl)
        have hsplit := splitOn_joinWith slash st.reverse hne (fun e he => (hmem2 e he).2)
        have hhead : ((joinWith slash st.reverse).head? == some slash) = false := by
          cases hl : st.reverse with
          | nil => exact absurd hl hne
          | cons e es =>
            have he := hmem2 e (by rw [hl]; exact List.mem_cons_self _ _)
            rw [joinWith_head slash e es he.1]
            cases e with
            | nil => exact absurd rfl he.1
            | cons c cs =>
              have : c ≠ slash := fun h => he.2 (by simp [h])
              simpa using this
        unfold Clean
        rw [if_neg hb]
        simp only [hhead, hsplit, foldl_cleanStep_replay false st hgood, Bool.false_eq_true,
          if_false, if_neg hb]
    · -- rooted
      rw [hr] at hgood
      simp only [if_true]
      unfold Clean
      rw [if_neg (by simp)]
      simp only [List.head?_cons, beq_self_eq_true, if_true]
      congr 1
      by_cases hne : st.reverse = []
      · have : st = [] := by simpa using hne
        subst this
        decide
      · have hsplit := splitOn_joinWith slash st.reverse hne (fun e he => (hmem2 e he).2)
        simp only [splitOn, if_true, hsplit, List.foldl_cons]
        have h0 : cleanStep true [] [] = [] := by decide
        rw [h0, foldl_cleanStep_replay true st hgood]

/-- Go `path.Clean` reads two slashes as one. -/
theorem Clean_double_slash (a b : List Nat) (ha : a ≠ []) :
    Clean (a ++ slash :: slash :: b) = Clean (a ++ slash :: b) := by
  have h1 : a ++ slash :: slash :: b ≠ [] := by simp
  have h2 : a ++ slash :: b ≠ [] := by simp
  have hh : (a ++ slash :: slash :: b).head? = (a ++ slash :: b).head? := by
    cases a with
    | nil => exact absurd rfl ha
    | cons c cs => rfl
  unfold Clean
  rw [if_neg h1, if_neg h2, hh]
  have hs : ∀ r, (splitOn slash (a ++ slash :: slash :: b)).foldl (cleanStep r) []
      = (splitOn slash (a ++ slash :: b)).foldl (cleanStep r) [] := by
    intro r
    rw [splitOn_append, splitOn_append]
    simp only [List.foldl_append]
    have : splitOn slash (slash :: b) = [] :: splitOn slash b := by simp [splitOn]
    rw [this, List.foldl_cons]
    have h0 : ∀ st, cleanStep r st [] = st := by
      intro st
      simp [cleanStep]
    rw [h0]
  simp only [hs]


/-! ## Lemmas on `GetHouseDir` -/

theorem slice_zero (s : List Nat) (n : Nat) (h : n ≤ s.length) :
    slice s 0 (n : Int) = some (s.take n) := by
  unfold slice
  rw [if_pos ⟨le_refl _, by omega, by omega⟩]
  simp

theorem x_take (m : Nat) (h : m ≤ 16) : x.take m = List.replicate m 120 := by
  unfold x
  rw [List.take_replicate]
  congr 1
  omega

/-- One component of the house directory. -/
theorem houseLoop_eq (houseID : List Nat) (hlen : houseID.length ≤ 16) (n : Nat) :
    ∀ (k fuel : Nat) (buf : List Nat), 2 * (k + n) = houseID.length → n + 1 ≤ fuel →
      houseLoop houseID houseID.length fuel (2 * (k + 1)) buf
        = some (buf ++ ((List.range' k n).map (fun j => houseID.take (2 * (j + 1)) ++
            List.replicate (houseID.length - 2 * (j + 1)) 120)).flatMap
              (fun c => slash :: c)) := by
  induction n with
  | zero =>
    intro k fuel buf hk hf
    obtain ⟨f, rfl⟩ : ∃ f, fuel = f + 1 := ⟨fuel - 1, by omega⟩
    unfold houseLoop
    rw [if_neg (by omega)]
    simp
  | succ n ih =>
    intro k fuel buf hk hf
    obtain ⟨f, rfl⟩ : ∃ f, fuel = f + 1 := ⟨fuel - 1, by omega⟩
    unfold houseLoop
    rw [if_pos (by omega)]
    have h1 : slice houseID 0 ((2 * (k + 1) : Nat) : Int) = some (houseID.take (2 * (k + 1))) :=
      slice_zero _ _ (by omega)
    have h2 : slice x 0 ((houseID.length : Int) - ((2 * (k + 1) : Nat) : Int))
        = some (List.replicate (houseID.length - 2 * (k + 1)) 120) := by
      have : (houseID.length : Int) - ((2 * (k + 1) : Nat) : Int)
          = ((houseID.length - 2 * (k + 1) : Nat) : Int) := by omega
      rw [this, slice_zero x _ (by simp [x]; omega), x_take _ (by omega)]
    rw [h1, h2]
    simp only
    have := ih (k + 1) f (buf ++ [slash] ++ houseID.take (2 * (k + 1)) ++
      List.replicate (houseID.length - 2 * (k + 1)) 120) (by omega) (by omega)
    have e : 2 * (k + 1) + 2 = 2 * (k + 1 + 1) := by omega
    rw [e, this]
    simp [List.range'_succ, List.flatMap_cons]

theorem flatMap_slash (l : List (List Nat)) (hl : l ≠ []) :
    l.flatMap (fun c => slash :: c) = slash :: joinWith slash l := by
  induction l with
  | nil => exact absurd rfl hl
  | cons e es ih =>
    cases es with
    | nil => simp [joinWith]
    | cons e1 es1 =>
      rw [List.flatMap_cons, ih (by simp)]
      simp [joinWith]

theorem houseComponents_length (houseID : List Nat) :
    (houseComponents houseID).length = houseID.length / 2 := by
  simp [houseComponents]

/-- The loop of `GetHouseDir` on a house identifier of even length at most 16
writes a slash and the components joined by slashes. -/
theorem houseLoop_components (houseID : List Nat) (hlen : houseID.length ≤ 16)
    (h6 : 6 ≤ houseID.length) (heven : houseID.length % 2 = 0) :
    houseLoop houseID houseID.length (houseID.length + 1) 2 []
      = some (slash :: joinWith slash (houseComponents houseID)) := by
  have h := houseLoop_eq houseID hlen (houseID.length / 2) 0 (houseID.length + 1) []
    (by omega) (by omega)
  simp only [Nat.zero_add, Nat.mul_one, List.nil_append] at h
  rw [h, ← List.range_eq_range']
  have hne : houseComponents houseID ≠ [] := by
    intro hnil
    have := houseComponents_length houseID
    rw [hnil] at this
    simp at this
    omega
  exact congrArg some (flatMap_slash _ hne)

/-- The path `GetHouseDir` returns for a root and the text its loop wrote. -/
theorem Clean_Join_root (root J : List Nat) :
    Clean (Join [root, slash :: J]) = Clean (root ++ slash :: J) := by
  have hsum : ¬ ([root, slash :: J].map List.length).sum = 0 := by simp
  unfold Join
  rw [if_neg hsum, Clean_idempotent]
  by_cases hr : root = []
  · subst hr
    simp [joinLoop]
  · have hpos : 0 < root.length := List.length_pos.2 hr
    simp only [joinLoop, List.length_nil, lt_self_iff_false, hr, ne_eq, not_false_eq_true,
      or_true, if_true, if_false, List.nil_append, hpos, true_or]
    rw [List.append_assoc]
    exact Clean_double_slash root J hr


/-! ## The house directory -/

/-- C13: `GetHouseDir` returns an error exactly when the length of `houseID` is
below 6, above 16 or odd. Otherwise no slice expression is out of range, the
loop writes, each after a slash, the `len(houseID)/2` components of the
specification (the first `2k` bytes of `houseID` followed by `len(houseID)-2k`
characters `x`, for `k = 1..len(houseID)/2`), every component is as long as
`houseID`, the last one is `houseID`, and the result is the clean form of the
root, a slash and the components joined by slashes; for a `houseID` without a
slash these components are the elements of the text joined under the root. -/
theorem C13_house_dir (root houseID : List Nat) :
    ((∃ msg, GetHouseDir root houseID = some (.error msg)) ↔
      (houseID.length < 6 ∨ houseID.length > 16 ∨ houseID.length % 2 = 1)) ∧
    (¬ (houseID.length < 6 ∨ houseID.length > 16 ∨ houseID.length % 2 = 1) →
      houseLoop houseID houseID.length (houseID.length + 1) 2 []
        = some (slash :: joinWith slash (houseComponents houseID)) ∧
      GetHouseDir root houseID
        = some (.ok (Clean (Join [root, slash :: joinWith slash (houseComponents houseID)]))) ∧
      GetHouseDir root houseID
        = some (.ok (Clean (root ++ slash :: joinWith slash (houseComponents houseID)))) ∧
      (houseComponents houseID).length = houseID.length / 2 ∧
      (∀ k, k < houseID.length / 2 →
        (houseComponents houseID)[k]? = some (houseID.take (2 * (k + 1)) ++
          List.replicate (houseID.length - 2 * (k + 1)) 120)) ∧
      (∀ c ∈ houseComponents houseID, c.length = houseID.length) ∧
      (houseComponents houseID).getLast? = some houseID ∧
      (slash ∉ houseID →
        splitOn slash (joinWith slash (houseComponents houseID)) = houseComponents houseID)) := by
  constructor
  · constructor
    · rintro ⟨msg, h⟩
      by_contra hc
      have h6 : 6 ≤ houseID.length := by omega
      have h16 : houseID.length ≤ 16 := by omega
      have he : houseID.length % 2 = 0 := by omega
      unfold GetHouseDir at h
      simp only at h
      rw [if_neg (by omega), houseLoop_components houseID h16 h6 he] at h
      cases h
    · intro hc
      refine ⟨ws.utf8Bytes "bad houseID; " ++ houseID, ?_⟩
      unfold GetHouseDir
      simp only
      rw [if_pos (by omega)]
  · intro hc
    have h6 : 6 ≤ houseID.length := by omega
    have h16 : houseID.length ≤ 16 := by omega
    have he : houseID.length % 2 = 0 := by omega
    have hloop := houseLoop_components houseID h16 h6 he
    have hget : GetHouseDir root houseID
        = some (.ok (Clean (Join [root, slash :: joinWith slash (houseComponents houseID)]))) := by
      unfold GetHouseDir
      simp only
      rw [if_neg (by omega), hloop]
    have hk : ∀ k, k < houseID.length / 2 →
        (houseComponents houseID)[k]? = some (houseID.take (2 * (k + 1)) ++
          List.replicate (houseID.length - 2 * (k + 1)) 120) := by
      intro k hk
      simp [houseComponents, List.getElem?_map, List.getElem?_range hk]
    have hlenc : ∀ c ∈ houseComponents houseID, c.length = houseID.length := by
      intro c hcm
      simp only [houseComponents, List.mem_map, List.mem_range] at hcm
      obtain ⟨k, hk1, rfl⟩ := hcm
      simp only [List.length_append, List.length_take, List.length_replicate]
      omega
    refine ⟨hloop, hget, ?_, houseComponents_length houseID, hk, hlenc, ?_, ?_⟩
    · rw [hget, Clean_Join_root]
    · rw [List.getLast?_eq_getElem?, houseComponents_length,
        hk (houseID.length / 2 - 1) (by omega)]
      have e : 2 * (houseID.length / 2 - 1 + 1) = houseID.length := by omega
      rw [e]
      simp
    · intro hs
      have hx : (120 : Nat) ≠ slash := by decide
      apply splitOn_joinWith
      · intro hnil
        have := houseComponents_length houseID
        rw [hnil] at this
        simp at this
        omega
      · intro c hcm
        simp only [houseComponents, List.mem_map, List.mem_range] at hcm
        obtain ⟨k, -, rfl⟩ := hcm
        intro hm
        rcases List.mem_append.1 hm with h1 | h1
        · exact hs (List.mem_of_mem_take h1)
        · exact hx (List.eq_of_mem_replicate h1).symm


/-! ## Lemmas on `Suffix` and `WithoutSuffix` -/

/-- A non-empty path that does not end in a slash ends in its base name. -/
theorem Base_suffix (filename : List Nat) (hne : filename ≠ [])
    (hlast : filename.getLast? ≠ some slash) : ∃ pre, filename = pre ++ Base filename := by
  have hrev : ∃ c cs, filename.reverse = c :: cs ∧ c ≠ slash := by
    cases h : filename.reverse with
    | nil => exact absurd (List.reverse_eq_nil_iff.1 h) hne
    | cons c cs =>
      refine ⟨c, cs, rfl, ?_⟩
      intro hc
      apply hlast
      rw [List.getLast?_eq_head?_reverse, h, hc]
      rfl
  obtain ⟨c, cs, hr, hc⟩ := hrev
  have hstrip : stripTrailingSlashes filename = filename := by
    unfold stripTrailingSlashes
    rw [hr, List.dropWhile_cons_of_neg (by simpa using hc), ← hr, List.reverse_reverse]
  have hafter : afterLastSlash filename ≠ [] := by
    unfold afterLastSlash
    rw [hr, List.takeWhile_cons_of_pos (by simpa using hc)]
    simp
  refine ⟨(filename.reverse.dropWhile (fun b => b != slash)).reverse, ?_⟩
  unfold Base
  rw [if_neg hne, hstrip]
  simp only [hafter, if_false]
  unfold afterLastSlash
  rw [← List.reverse_append, List.takeWhile_append_dropWhile, List.reverse_reverse]

/-- A text splits at the first occurrence of a byte. -/
theorem split_at_indexOf (l : List Nat) (a : Nat) (h : l.indexOf a < l.length) :
    l = l.take (l.indexOf a) ++ a :: l.drop (l.indexOf a + 1) := by
  have hget : l[l.indexOf a] = a := List.indexOf_get h
  conv_lhs => rw [← List.take_append_drop (l.indexOf a) l]
  rw [List.drop_eq_getElem_cons h, hget]

/-- Where `WithoutSuffix` does what its documentation says: with a lower-casing
that keeps the number of bytes (as on ASCII names) and a file name with no
trailing slash, a name without suffix is returned unchanged and any other name
is the result, a dot, and a tail whose lower-casing is the suffix. -/
theorem WithoutSuffix_of_length_preserving (toLower : List Nat → List Nat)
    (filename : List Nat) (hlen : ∀ s, (toLower s).length = s.length)
    (hlast : filename.getLast? ≠ some slash) :
    (Suffix toLower filename = [] → WithoutSuffix toLower filename = some filename) ∧
    (Suffix toLower filename ≠ [] → ∃ w t, WithoutSuffix toLower filename = some w ∧
      filename = w ++ dot :: t ∧ toLower t = Suffix toLower filename) := by
  constructor
  · intro h
    simp [WithoutSuffix, h]
  · intro h
    have hne : filename ≠ [] := by
      intro hnil
      apply h
      subst hnil
      unfold Suffix
      simp only
      rw [if_pos (by decide)]
    obtain ⟨pre, hpre⟩ := Base_suffix filename hne hlast
    have hsuf : Suffix toLower filename
        = if Index (Base filename) dot < 0 ∨
            Index (Base filename) dot = ((Base filename).length : Int) - 1 then []
          else toLower ((Base filename).drop (Index (Base filename) dot + 1).toNat) := rfl
    by_cases hidx : Index (Base filename) dot < 0 ∨
        Index (Base filename) dot = ((Base filename).length : Int) - 1
    · rw [hsuf, if_pos hidx] at h
      exact absurd rfl h
    · rw [if_neg hidx] at hsuf
      have hlt : (Base filename).indexOf dot < (Base filename).length := by
        by_contra hc
        apply hidx
        left
        unfold Index
        rw [if_neg hc]
        decide
      have hI : Index (Base filename) dot = ((Base filename).indexOf dot : Int) := by
        unfold Index
        rw [if_pos hlt]
      have hd : (Index (Base filename) dot + 1).toNat = (Base filename).indexOf dot + 1 := by
        rw [hI]
        omega
      rw [hd] at hsuf
      have hsplit := split_at_indexOf (Base filename) dot hlt
      refine ⟨pre ++ (Base filename).take ((Base filename).indexOf dot),
        (Base filename).drop ((Base filename).indexOf dot + 1), ?_, ?_, hsuf.symm⟩
      · have hfl : filename.length = pre.length + (Base filename).length := by
          conv_lhs => rw [hpre]
          simp
        have hbl : (Base filename).length = (Base filename).indexOf dot + 1 +
            ((Base filename).drop ((Base filename).indexOf dot + 1)).length := by
          simp only [List.length_drop]
          omega
        have hsl : (Suffix toLower filename).length
            = ((Base filename).drop ((Base filename).indexOf dot + 1)).length := by
          rw [hsuf, hlen]
        unfold WithoutSuffix
        simp only [h, if_false]
        have hhi : (filename.length : Int) - ((Suffix toLower filename).length : Int) - 1
            = ((pre.length + (Base filename).indexOf dot : Nat) : Int) := by
          rw [hsl, hfl]
          omega
        rw [hhi, slice_zero _ _ (by omega)]
        exact congrArg some ((congrArg (List.take _) hpre).trans (List.take_append _))
      · calc filename = pre ++ Base filename := hpre
          _ = pre ++ ((Base filename).take ((Base filename).indexOf dot) ++
                dot :: (Base filename).drop ((Base filename).indexOf dot + 1)) := by
              rw [← hsplit]
          _ = _ := by simp

/-- An ASCII path with a suffix of two parts in mixed case. -/
theorem WithoutSuffix_example :
    Suffix asciiToLower (ws.utf8Bytes "dir.d/a.Mxf.XML") = ws.utf8Bytes "mxf.xml" ∧
    WithoutSuffix asciiToLower (ws.utf8Bytes "dir.d/a.Mxf.XML")
      = some (ws.utf8Bytes "dir.d/a") := by
  decide

/-! ## Removing the suffix -/

/-- C11 fails on the code. For the file name `.Ⱥ` (bytes `2E C8 BA`), whose
suffix is the lower-case letter `ⱥ` of three bytes, the upper bound of the slice
in `WithoutSuffix` is `3 - 3 - 1 = -1` and the function panics. For the path
`a.txt/`, whose suffix is `txt`, `WithoutSuffix` returns `a.`, which is not the
path with the suffix removed. -/
theorem C11_without_suffix_defect :
    Suffix sampleToLower [46, 200, 186] = [226, 177, 165] ∧
    WithoutSuffix sampleToLower [46, 200, 186] = none ∧
    Suffix asciiToLower (ws.utf8Bytes "a.txt/") = ws.utf8Bytes "txt" ∧
    WithoutSuffix asciiToLower (ws.utf8Bytes "a.txt/") = some (ws.utf8Bytes "a.") := by
  decide

/-- Witness for C13: the house directory of `ABCDEF12` under `/root/`. -/
theorem C13_house_dir_witness :
    GetHouseDir (ws.utf8Bytes "/root/") (ws.utf8Bytes "ABCDEF12")
      = some (.ok (Clean (ws.utf8Bytes "/root/" ++
          slash :: joinWith slash (houseComponents (ws.utf8Bytes "ABCDEF12"))))) ∧
    Clean (ws.utf8Bytes "/root/" ++
        slash :: joinWith slash (houseComponents (ws.utf8Bytes "ABCDEF12")))
      = ws.utf8Bytes "/root/ABxxxxxx/ABCDxxxx/ABCDEFxx/ABCDEF12" :=
  ⟨((C13_house_dir (ws.utf8Bytes "/root/") (ws.utf8Bytes "ABCDEF12")).2 (by decide)).2.2.1,
    by decide⟩

end fs
